import Mathlib

/-!
A shallow embedding of the orchestration core of `src/orchestrator.py`
(the EXTALOSARIUS repository), together with proofs about it.

Python text is modelled as `String` (lists of characters), Python dicts as
insertion-ordered association lists, Python floats as exact rationals `ℚ`
(every weight in the program is a small decimal, and the program rounds every
score to two decimal places, so on all values the program produces the exact
rational arithmetic agrees with the observable float behaviour), and the
non-deterministic inference service as an oracle mapping a cycle index and an
agent to the text the model returned.  The Python builtins the program uses
(`str.split`, `str.strip`, `str.upper`, `in`, `startswith`, `dict.get`,
`dict.setdefault`, `json.dumps`, `repr`/format of floats, `hashlib.sha256`)
are implemented below with their documented semantics.
-/

/-! ## Python string primitives -/

/-- The characters Python's `str.strip()` removes by default, restricted to
ASCII (all text the program handles is ASCII). -/
def pyIsSpace (c : Char) : Bool :=
  c = ' ' || c = '\t' || c = '\n' || c = '\r' || c = '\x0b' || c = '\x0c'

/-- Python `str.strip()`: drop leading and trailing whitespace. -/
def pyStrip (s : String) : String :=
  ⟨((s.data.dropWhile pyIsSpace).reverse.dropWhile pyIsSpace).reverse⟩

/-- Python `str.upper()` (ASCII). -/
def pyUpper (s : String) : String := ⟨s.data.map Char.toUpper⟩

/-- Python `str.lower()` (ASCII). -/
def pyLower (s : String) : String := ⟨s.data.map Char.toLower⟩

/-- Python `str.startswith(p)`. -/
def pyStartsWith (p s : String) : Bool := p.data.isPrefixOf s.data

/-- Split `s` at the first occurrence of `sep`: `some (before, after)` when
`sep` occurs in `s` (leftmost occurrence), `none` otherwise.  This is the
one-step engine behind Python's `sep in s` and `s.split(sep)`. -/
def firstSplitCh : List Char → List Char → Option (List Char × List Char)
  | sep, [] => if sep.isPrefixOf ([] : List Char) then some ([], []) else none
  | sep, c :: cs =>
    if sep.isPrefixOf (c :: cs) then some ([], (c :: cs).drop sep.length)
    else match firstSplitCh sep cs with
      | none => none
      | some (b, a) => some (c :: b, a)

/-- Python's substring test `sep in s`. -/
def pyContainsCh (sep : List Char) : List Char → Bool
  | [] => sep.isPrefixOf ([] : List Char)
  | c :: cs => sep.isPrefixOf (c :: cs) || pyContainsCh sep cs

theorem firstSplitCh_length (sep : List Char) :
    ∀ s b a, firstSplitCh sep s = some (b, a) → a.length + sep.length ≤ s.length := by
  intro s
  induction s with
  | nil =>
    intro b a h
    simp only [firstSplitCh] at h
    split at h
    · rename_i hp
      simp only [List.isPrefixOf_iff_prefix, List.prefix_nil] at hp
      simp only [Option.some.injEq, Prod.mk.injEq] at h
      simp [← h.2, hp]
    · exact absurd h (by simp)
  | cons c cs ih =>
    intro b a h
    simp only [firstSplitCh] at h
    split at h
    · rename_i hp
      simp only [Option.some.injEq, Prod.mk.injEq] at h
      have hlen : sep.length ≤ (c :: cs).length :=
        (List.isPrefixOf_iff_prefix.mp hp).length_le
      have : a = (c :: cs).drop sep.length := h.2.symm
      subst this
      simp only [List.length_drop]
      omega
    · cases hm : firstSplitCh sep cs with
      | none => simp [hm] at h
      | some p =>
        obtain ⟨b', a'⟩ := p
        simp only [hm, Option.some.injEq, Prod.mk.injEq] at h
        have hlen := ih b' a' hm
        obtain ⟨hb, ha⟩ := h
        subst ha
        simp only [List.length_cons]
        omega

theorem firstSplitCh_length_lt (sep : List Char) (hsep : sep ≠ [])
    (s b a : List Char) (h : firstSplitCh sep s = some (b, a)) :
    a.length < s.length := by
  have h1 := firstSplitCh_length sep s b a h
  have h2 : 0 < sep.length := List.length_pos.mpr hsep
  omega

/-- Fuel-driven worker for `pySplitCh` (structural recursion on the fuel, so
that it evaluates inside the kernel; `s.length` fuel always suffices for a
non-empty separator). -/
def pySplitChAux (sep : List Char) : Nat → List Char → List (List Char)
  | 0, s => [s]
  | fuel + 1, s =>
    match firstSplitCh sep s with
    | none => [s]
    | some (b, a) => b :: pySplitChAux sep fuel a

/-- Python `s.split(sep)` for a non-empty separator: the pieces between the
non-overlapping, left-to-right occurrences of `sep`.  (For an empty separator
Python raises; the program only splits on non-empty literals, and we return
`[s]` in that unreachable case.) -/
def pySplitCh (sep : List Char) (s : List Char) : List (List Char) :=
  if sep = [] then [s] else pySplitChAux sep s.length s

/-- With a non-empty separator, any fuel of at least `s.length` computes the
same split. -/
theorem pySplitChAux_fuel (sep : List Char) (hsep : sep ≠ []) :
    ∀ fuel₁ fuel₂ s, s.length ≤ fuel₁ → s.length ≤ fuel₂ →
      pySplitChAux sep fuel₁ s = pySplitChAux sep fuel₂ s := by
  intro fuel₁
  induction fuel₁ with
  | zero =>
    intro fuel₂ s h1 h2
    have hs : s = [] := List.length_eq_zero.mp (Nat.le_zero.mp h1)
    subst hs
    cases fuel₂ with
    | zero => rfl
    | succ n =>
      have : firstSplitCh sep [] = none := by
        simp only [firstSplitCh]
        rw [if_neg]
        simp [List.isPrefixOf_iff_prefix, List.prefix_nil, hsep]
      simp [pySplitChAux, this]
  | succ n ih =>
    intro fuel₂ s h1 h2
    cases fuel₂ with
    | zero =>
      have hs : s = [] := List.length_eq_zero.mp (Nat.le_zero.mp h2)
      subst hs
      have : firstSplitCh sep [] = none := by
        simp only [firstSplitCh]
        rw [if_neg]
        simp [List.isPrefixOf_iff_prefix, List.prefix_nil, hsep]
      simp [pySplitChAux, this]
    | succ m =>
      cases hm : firstSplitCh sep s with
      | none => simp [pySplitChAux, hm]
      | some p =>
        obtain ⟨b, a⟩ := p
        have hlt := firstSplitCh_length_lt sep hsep s b a hm
        simp only [pySplitChAux, hm]
        exact congrArg (b :: ·) (ih m a (by omega) (by omega))

/-- String-level wrapper of `pyContainsCh`. -/
def pyContains (sep s : String) : Bool := pyContainsCh sep.data s.data

theorem pyContainsCh_iff_firstSplitCh (sep s : List Char) :
    pyContainsCh sep s = (firstSplitCh sep s).isSome := by
  induction s with
  | nil =>
    by_cases hp : sep.isPrefixOf ([] : List Char) <;>
      simp [pyContainsCh, firstSplitCh, hp]
  | cons c cs ih =>
    cases hp : sep.isPrefixOf (c :: cs)
    case true => simp [pyContainsCh, firstSplitCh, hp]
    case false =>
      simp only [pyContainsCh, firstSplitCh, hp, Bool.false_or, ih]
      cases hm : firstSplitCh sep cs with
      | none => simp
      | some p => cases p; simp

/-- If `s` contains `sep` then it contains every prefix of `sep`. -/
theorem pyContainsCh_of_prefix {sep' sep s : List Char}
    (hpre : sep'.isPrefixOf sep = true) (h : pyContainsCh sep s = true) :
    pyContainsCh sep' s = true := by
  induction s with
  | nil =>
    simp only [pyContainsCh, List.isPrefixOf_iff_prefix, List.prefix_nil] at *
    subst h
    simpa [List.isPrefixOf_iff_prefix, List.prefix_nil] using
      List.prefix_nil.mp (by simpa using hpre)
  | cons c cs ih =>
    simp only [pyContainsCh, Bool.or_eq_true] at h ⊢
    cases h with
    | inl h =>
      exact Or.inl (List.isPrefixOf_iff_prefix.mpr
        ((List.isPrefixOf_iff_prefix.mp hpre).trans (List.isPrefixOf_iff_prefix.mp h)))
    | inr h => exact Or.inr (ih h)

theorem pySplitCh_of_not_contains {sep s : List Char}
    (h : pyContainsCh sep s = false) : pySplitCh sep s = [s] := by
  have hnone : firstSplitCh sep s = none := by
    rw [pyContainsCh_iff_firstSplitCh] at h
    cases hm : firstSplitCh sep s with
    | none => rfl
    | some p => rw [hm] at h; simp at h
  rw [pySplitCh]
  split
  · rfl
  · cases hl : s.length with
    | zero => rfl
    | succ n => simp [pySplitChAux, hnone]

theorem pySplitCh_cons_of_firstSplit {sep s b a : List Char} (hsep : sep ≠ [])
    (h : firstSplitCh sep s = some (b, a)) :
    pySplitCh sep s = b :: pySplitCh sep a := by
  have hlt := firstSplitCh_length_lt sep hsep s b a h
  rw [pySplitCh, pySplitCh, if_neg hsep, if_neg hsep]
  cases hl : s.length with
  | zero => omega
  | succ n =>
    simp only [pySplitChAux, h]
    rw [pySplitChAux_fuel sep hsep n a.length a (by omega) (le_refl _)]

/-! ## Python dicts and the shared state -/

/-- A Python dict from strings to strings (`code_chunks`, `validations`),
as an insertion-ordered association list with unique keys. -/
abbrev PyDict := List (String × String)

/-- A value of the shared-state dict: a string, a float, or a nested
string-to-string dict. -/
inductive PyVal where
  | vs (s : String)
  | vn (q : ℚ)
  | vd (d : PyDict)
deriving DecidableEq

/-- The shared mutable state `shared_state`: a Python dict with string keys,
as an insertion-ordered association list. -/
abbrev PyState := List (String × PyVal)

/-- `d.get(k)` on an insertion-ordered association list: the value at the
first (and, for a Python dict, only) occurrence of the key. -/
def alGet {α : Type} : List (String × α) → String → Option α
  | [], _ => none
  | p :: ps, k => if p.1 = k then some p.2 else alGet ps k

/-- `d[k] = v` on an insertion-ordered association list: replace the value in
place when the key exists, append the pair otherwise (Python dicts keep
insertion order). -/
def alSet {α : Type} : List (String × α) → String → α → List (String × α)
  | [], k, v => [(k, v)]
  | p :: ps, k, v => if p.1 = k then (k, v) :: ps else p :: alSet ps k v

/-- `d.setdefault(k, v)`: insert only when the key is absent. -/
def alSetdefault {α : Type} : List (String × α) → String → α → List (String × α)
  | [], k, v => [(k, v)]
  | p :: ps, k, v => if p.1 = k then p :: ps else p :: alSetdefault ps k v

/-- The keys of an association list, in order. -/
def alKeys {α : Type} (l : List (String × α)) : List String := l.map Prod.fst

/-- `d.get(k)` on a string dict. -/
def dictGet (d : PyDict) (k : String) : Option String := alGet d k

/-- `d[k] = v` on a string dict. -/
def dictSet (d : PyDict) (k v : String) : PyDict := alSet d k v

/-- `state.get(k)` on the shared state. -/
def dGet (st : PyState) (k : String) : Option PyVal := alGet st k

/-- `state[k] = v` on the shared state. -/
def dSet (st : PyState) (k : String) (v : PyVal) : PyState := alSet st k v

/-- `state.setdefault(k, v)`: insert only when the key is absent. -/
def dSetdefault (st : PyState) (k : String) (v : PyVal) : PyState := alSetdefault st k v

theorem alGet_alSet_self {α : Type} (l : List (String × α)) (k : String) (v : α) :
    alGet (alSet l k v) k = some v := by
  induction l with
  | nil => simp [alSet, alGet]
  | cons p ps ih =>
    by_cases hp : p.1 = k
    · simp [alSet, alGet, hp]
    · simp [alSet, alGet, hp, ih]

theorem alGet_alSet_ne {α : Type} (l : List (String × α)) (k k' : String) (v : α)
    (h : k' ≠ k) : alGet (alSet l k v) k' = alGet l k' := by
  have hkk : k ≠ k' := Ne.symm h
  induction l with
  | nil => simp [alSet, alGet, hkk]
  | cons p ps ih =>
    by_cases hp : p.1 = k
    · have hpk' : p.1 ≠ k' := by
        rw [hp]
        exact hkk
      simp [alSet, alGet, hp, hpk', hkk]
    · by_cases hq : p.1 = k'
      · simp [alSet, alGet, hp, hq, h]
      · simp [alSet, alGet, hp, hq, ih]

theorem alGet_alSetdefault_ne {α : Type} (l : List (String × α)) (k k' : String) (v : α)
    (h : k' ≠ k) : alGet (alSetdefault l k v) k' = alGet l k' := by
  have hkk : k ≠ k' := Ne.symm h
  induction l with
  | nil => simp [alSetdefault, alGet, hkk]
  | cons p ps ih =>
    by_cases hp : p.1 = k
    · simp [alSetdefault, alGet, hp]
    · by_cases hq : p.1 = k'
      · simp [alSetdefault, alGet, hp, hq, h]
      · simp [alSetdefault, alGet, hp, hq, ih]

theorem alSetdefault_of_get {α : Type} (l : List (String × α)) (k : String) (v : α)
    (h : (alGet l k).isSome) : alSetdefault l k v = l := by
  induction l with
  | nil => simp [alGet] at h
  | cons p ps ih =>
    by_cases hp : p.1 = k
    · simp [alSetdefault, hp]
    · simp only [alGet, if_neg hp] at h
      simp [alSetdefault, hp, ih h]

theorem alGet_alSetdefault_absent {α : Type} (l : List (String × α)) (k : String) (v : α)
    (h : alGet l k = none) : alSetdefault l k v = l ++ [(k, v)] := by
  induction l with
  | nil => simp [alSetdefault]
  | cons p ps ih =>
    by_cases hp : p.1 = k
    · simp [alGet, hp] at h
    · simp only [alGet, if_neg hp] at h
      simp [alSetdefault, hp, ih h]

theorem mem_alKeys_alSet {α : Type} (l : List (String × α)) (k : String) (v : α)
    (a : String) : a ∈ alKeys (alSet l k v) ↔ a ∈ alKeys l ∨ a = k := by
  induction l with
  | nil => simp [alSet, alKeys]
  | cons p ps ih =>
    by_cases hp : p.1 = k
    · subst hp
      simp only [alSet, if_true, eq_self_iff_true, ite_true, alKeys, List.map_cons,
        List.mem_cons]
      tauto
    · simp only [alSet, if_neg hp, alKeys, List.map_cons, List.mem_cons] at ih ⊢
      rw [ih]
      tauto

theorem mem_alKeys_alSetdefault {α : Type} (l : List (String × α)) (k : String) (v : α)
    (a : String) : a ∈ alKeys (alSetdefault l k v) ↔ a ∈ alKeys l ∨ a = k := by
  induction l with
  | nil => simp [alSetdefault, alKeys]
  | cons p ps ih =>
    by_cases hp : p.1 = k
    · subst hp
      simp only [alSetdefault, if_true, eq_self_iff_true, ite_true, alKeys, List.map_cons,
        List.mem_cons]
      tauto
    · simp only [alSetdefault, if_neg hp, alKeys, List.map_cons, List.mem_cons] at ih ⊢
      rw [ih]
      tauto

theorem alGet_mem_alKeys {α : Type} (l : List (String × α)) (k : String) (w : α)
    (h : alGet l k = some w) : k ∈ alKeys l := by
  induction l with
  | nil => simp [alGet] at h
  | cons p ps ih =>
    by_cases hp : p.1 = k
    · simp [alKeys, List.mem_cons, hp]
    · simp only [alGet, if_neg hp] at h
      simp only [alKeys, List.map_cons, List.mem_cons]
      exact Or.inr (ih h)

/-- `state.get(k, default)` where the program uses the result as a string
(the program only ever stores strings under these keys); an absent key or
Python's `None` rendered into an f-string both yield the default. -/
def getStr (st : PyState) (k : String) (dflt : String) : String :=
  match dGet st k with
  | some (.vs s) => s
  | _ => dflt

/-- `state.get(k, {})` where the program uses the result as a dict. -/
def getDict (st : PyState) (k : String) : PyDict :=
  match dGet st k with
  | some (.vd d) => d
  | _ => []

/-- `state.get(k, 0.0)` where the program uses the result as a float. -/
def getNum (st : PyState) (k : String) (dflt : ℚ) : ℚ :=
  match dGet st k with
  | some (.vn q) => q
  | _ => dflt

/-- Python truthiness of `state.get(k)` (`None`, `""`, `0.0` and `{}` are
falsy), used by `if last_chunk_id:` and `if shared_state.get("last_chunk_id"):`. -/
def dTruthy (st : PyState) (k : String) : Bool :=
  match dGet st k with
  | none => false
  | some (.vs s) => s ≠ ""
  | some (.vn q) => q ≠ 0
  | some (.vd d) => d ≠ []

/-! ## Entropy (`calculate_entropy`, lines 45-88) -/

/-- Round half to even, Python's rounding mode for `round(x, n)`. -/
def rhe (x : ℚ) : ℤ :=
  if Int.fract x < 1/2 then ⌊x⌋
  else if 1/2 < Int.fract x then ⌊x⌋ + 1
  else if Even ⌊x⌋ then ⌊x⌋ else ⌊x⌋ + 1

/-- Python `round(x, 2)`. -/
def round2 (x : ℚ) : ℚ := (rhe (x * 100) : ℚ) / 100

/-- The integrity penalty (lines 52-55): 0.5 unless the integrity report
(defaulting to the empty string when absent) contains `'INTEGRITY OK'`. -/
def integrityTerm (st : PyState) : ℚ :=
  if pyContains "INTEGRITY OK" (getStr st "prompt_integrity" "") then 0 else 0.5

/-- The resource-management penalty (lines 57-64). -/
def resourceTerm (st : PyState) : ℚ :=
  let rml := pyLower (getStr st "resource_management" "")
  if pyContains "complexity" rml || pyContains "scope" rml then
    if pyContains "reduce" rml || pyContains "manage" rml then 0.2 else 0.4
  else 0

/-- The plan-absence penalty (lines 66-69). -/
def planTerm (st : PyState) : ℚ :=
  if getStr st "plan" "" = "" then 1.0 else 0

/-- The invalid-chunk penalty (lines 71-74): 0.7 per `validations` value that
starts with `'INVALID'`. -/
def invalidTerm (st : PyState) : ℚ :=
  (((getDict st "validations").filter (fun p => pyStartsWith "INVALID" p.2)).length : ℚ) * 0.7

/-- The success-criteria penalty (lines 76-79). -/
def criteriaTerm (st : PyState) : ℚ :=
  if getStr st "success_criteria" "" = "" then 0.8 else 0

/-- The action-stability penalty (lines 81-86). -/
def actionTerm (st : PyState) : ℚ :=
  let ca := getStr st "current_action" ""
  if ca = "REFINE" then 0.1
  else if ca = "PLAN" ∧ 0 < (getDict st "code_chunks").length then 0.3
  else 0

/-- `calculate_entropy` (lines 45-88): the additive penalty model, rounded to
two decimal places at the end. -/
def calculate_entropy (st : PyState) : ℚ :=
  round2 (integrityTerm st + resourceTerm st + planTerm st + invalidTerm st +
    criteriaTerm st + actionTerm st)

/-! ## Hashing (`create_genesis_hash`, `rehash_fragment`, lines 36-43)

`hashlib.sha256(...).hexdigest()` is implemented below: UTF-8 encoding,
padding, message schedule and compression exactly as in FIPS 180-4, over `Nat`
with explicit masking to 32 bits. -/

/-- UTF-8 bytes of one character (Python `str.encode()`). -/
def utf8Bytes (c : Char) : List Nat :=
  let n := c.toNat
  if n < 0x80 then [n]
  else if n < 0x800 then
    [0xC0 ||| (n >>> 6), 0x80 ||| (n &&& 0x3F)]
  else if n < 0x10000 then
    [0xE0 ||| (n >>> 12), 0x80 ||| ((n >>> 6) &&& 0x3F), 0x80 ||| (n &&& 0x3F)]
  else
    [0xF0 ||| (n >>> 18), 0x80 ||| ((n >>> 12) &&& 0x3F),
     0x80 ||| ((n >>> 6) &&& 0x3F), 0x80 ||| (n &&& 0x3F)]

/-- UTF-8 bytes of a string (Python `str.encode()`). -/
def strBytes (s : String) : List Nat := (s.data.map utf8Bytes).flatten

/-- Rotate a 32-bit word right by `n`. -/
def rotr32 (x n : Nat) : Nat := ((x >>> n) ||| (x <<< (32 - n))) &&& 0xFFFFFFFF

/-- The SHA-256 round constants `K₀…K₆₃`, packed big-endian into one number
(the same packing the padded message and the hash value use below). -/
def shaKPacked : Nat :=
  0x428a2f9871374491b5c0fbcfe9b5dba53956c25b59f111f1923f82a4ab1c5ed5d807aa9812835b01243185be550c7dc372be5d7480deb1fe9bdc06a7c19bf174e49b69c1efbe47860fc19dc6240ca1cc2de92c6f4a7484aa5cb0a9dc76f988da983e5152a831c66db00327c8bf597fc7c6e00bf3d5a7914706ca63511429296727b70a852e1b21384d2c6dfc53380d13650a7354766a0abb81c2c92e92722c85a2bfe8a1a81a664bc24b8b70c76c51a3d192e819d6990624f40e3585106aa07019a4c1161e376c082748774c34b0bcb5391c0cb34ed8aa4a5b9cca4f682e6ff3748f82ee78a5636f84c878148cc7020890befffaa4506cebbef9a3f7c67178f2

/-- The SHA-256 round constants. -/
def shaK : List Nat :=
  (List.range 64).map (fun i => (shaKPacked >>> (32 * (63 - i))) &&& 0xFFFFFFFF)

/-- The SHA-256 initial hash value `H₀…H₇`, packed big-endian. -/
def shaH0Packed : Nat := 0x6a09e667bb67ae853c6ef372a54ff53a510e527f9b05688c1f83d9ab5be0cd19

/-- The SHA-256 initial hash value. -/
def shaH0 : List Nat :=
  (List.range 8).map (fun i => (shaH0Packed >>> (32 * (7 - i))) &&& 0xFFFFFFFF)

/-- Extend a block's message schedule by `n` more words.  The word list is
kept most-recent-first, so `w[t-2]` is at index 1, `w[t-7]` at 6, `w[t-15]`
at 14 and `w[t-16]` at 15. -/
def extendSchedule : Nat → List Nat → List Nat
  | 0, w => w
  | n + 1, w =>
    let s0 := rotr32 (w.getD 14 0) 7 ^^^ rotr32 (w.getD 14 0) 18 ^^^ (w.getD 14 0 >>> 3)
    let s1 := rotr32 (w.getD 1 0) 17 ^^^ rotr32 (w.getD 1 0) 19 ^^^ (w.getD 1 0 >>> 10)
    extendSchedule n (((w.getD 15 0 + s0 + w.getD 6 0 + s1) &&& 0xFFFFFFFF) :: w)

/-- One SHA-256 compression round. -/
def compressStep (st : Nat × Nat × Nat × Nat × Nat × Nat × Nat × Nat) (kw : Nat × Nat) :
    Nat × Nat × Nat × Nat × Nat × Nat × Nat × Nat :=
  let (a, b, c, d, e, f, g, h) := st
  let bigS1 := rotr32 e 6 ^^^ rotr32 e 11 ^^^ rotr32 e 25
  let ch := (e &&& f) ^^^ ((e ^^^ 0xFFFFFFFF) &&& g)
  let temp1 := (h + bigS1 + ch + kw.1 + kw.2) &&& 0xFFFFFFFF
  let bigS0 := rotr32 a 2 ^^^ rotr32 a 13 ^^^ rotr32 a 22
  let maj := (a &&& b) ^^^ (a &&& c) ^^^ (b &&& c)
  let temp2 := (bigS0 + maj) &&& 0xFFFFFFFF
  ((temp1 + temp2) &&& 0xFFFFFFFF, a, b, c, (d + temp1) &&& 0xFFFFFFFF, e, f, g)

/-- Process one 16-word block, updating the running hash value. -/
def processBlock (hv : List Nat) (block : List Nat) : List Nat :=
  let w := (extendSchedule 48 block.reverse).reverse
  let init := (hv.getD 0 0, hv.getD 1 0, hv.getD 2 0, hv.getD 3 0,
               hv.getD 4 0, hv.getD 5 0, hv.getD 6 0, hv.getD 7 0)
  let (a, b, c, d, e, f, g, h) := (shaK.zip w).foldl compressStep init
  [(hv.getD 0 0 + a) &&& 0xFFFFFFFF, (hv.getD 1 0 + b) &&& 0xFFFFFFFF,
   (hv.getD 2 0 + c) &&& 0xFFFFFFFF, (hv.getD 3 0 + d) &&& 0xFFFFFFFF,
   (hv.getD 4 0 + e) &&& 0xFFFFFFFF, (hv.getD 5 0 + f) &&& 0xFFFFFFFF,
   (hv.getD 6 0 + g) &&& 0xFFFFFFFF, (hv.getD 7 0 + h) &&& 0xFFFFFFFF]

/-!
The byte string fed to the digest is packed into a single natural number
(big-endian, paired with its byte count): the kernel computes on arbitrary-
precision naturals natively, which keeps every reduction shallow. -/

/-- A byte string as (big-endian value, byte count). -/
abbrev ByteStr := Nat × Nat

/-- The UTF-8 bytes of one character, packed. -/
def utf8Pair (c : Char) : ByteStr :=
  ((utf8Bytes c).foldl (fun a b => a * 256 + b) 0, (utf8Bytes c).length)

/-- Concatenation of packed byte strings. -/
def catBytes (x y : ByteStr) : ByteStr := (x.1 * 256 ^ y.2 + y.1, x.2 + y.2)

/-- The packed UTF-8 bytes of a character list. -/
def bytesNatCh : List Char → ByteStr
  | [] => (0, 0)
  | c :: cs => catBytes (utf8Pair c) (bytesNatCh cs)

/-- The packed UTF-8 bytes of a string (Python `s.encode()`). -/
def strBytesNat (s : String) : ByteStr := bytesNatCh s.data

/-- The packed UTF-8 bytes of a concatenation given piece by piece. -/
def bytesNatList (l : List String) : ByteStr :=
  l.foldl (fun acc s => catBytes acc (strBytesNat s)) (0, 0)

/-- SHA-256 padding of a packed message: append `0x80`, zeros and the 64-bit
big-endian bit length to a multiple of 64 bytes.  Returns the padded message
and its number of 64-byte blocks. -/
def padNat (m : ByteStr) : Nat × Nat :=
  let len := m.2
  let zeros := (64 + 55 - len % 64) % 64
  (((m.1 * 256 + 0x80) <<< (8 * (zeros + 8))) + len * 8, (len + 1 + zeros + 8) / 64)

/-- The 16 words of block `i` (0-based) of a padded message of `nb` blocks. -/
def blockWords (p nb i : Nat) : List Nat :=
  (List.range 16).map (fun t => (p >>> (32 * (16 * nb - 16 * i - t - 1))) &&& 0xFFFFFFFF)

/-- Pack an 8-word hash value into one natural number. -/
def hvPack (l : List Nat) : Nat := l.foldl (fun a w => a * 4294967296 + w) 0

/-- Unpack an 8-word hash value. -/
def hvUnpack (n : Nat) : List Nat :=
  (List.range 8).map (fun i => (n >>> (32 * (7 - i))) &&& 0xFFFFFFFF)

/-- Process block `i` of the padded message `p`, on packed hash values. -/
def stepBlock (p nb i : Nat) (hv : Nat) : Nat :=
  hvPack (processBlock (hvUnpack hv) (blockWords p nb i))

/-- Run the compression function over all `nb` blocks of `p`. -/
def shaRun (p nb : Nat) : Nat :=
  (List.range nb).foldl (fun hv i => stepBlock p nb i hv) (hvPack shaH0)

/-- The lowercase hex digit for `n < 16`. -/
def hexDigit (n : Nat) : Char :=
  if n < 10 then Char.ofNat (48 + n) else Char.ofNat (87 + n)

/-- The 64 lowercase hex digits of a packed 256-bit hash value. -/
def shaHexOfState (st : Nat) : String :=
  ⟨(List.range 64).map (fun j => hexDigit ((st >>> (4 * (63 - j))) &&& 0xF))⟩

/-- `hashlib.sha256(s.encode()).hexdigest()`. -/
def sha256hex (s : String) : String :=
  let p := padNat (strBytesNat s)
  shaHexOfState (shaRun p.1 p.2)

/-- The digest of a concatenation given piece by piece. -/
def sha256hexPieces (l : List String) : String :=
  let p := padNat (bytesNatList l)
  shaHexOfState (shaRun p.1 p.2)

/-- `create_genesis_hash` (lines 36-38). -/
def create_genesis_hash (prompt : String) : String := sha256hex prompt

/-- `rehash_fragment` (lines 40-43): digest of `f"{origin_hash}:{agent_name}:{thought}"`. -/
def rehash_fragment (origin_hash agent_name thought : String) : String :=
  sha256hex (origin_hash ++ ":" ++ agent_name ++ ":" ++ thought)

/-- `rehash_fragment` with the thought given as concatenation pieces (the
engine below hands the rendered instruction over piece by piece; by
`rehash_fragmentPieces_eq` this is the same digest). -/
def rehash_fragmentPieces (origin_hash agent_name : String) (thought : List String) : String :=
  sha256hexPieces (origin_hash :: ":" :: agent_name :: ":" :: thought)

theorem catBytes_assoc (x y z : ByteStr) :
    catBytes (catBytes x y) z = catBytes x (catBytes y z) := by
  obtain ⟨a, b⟩ := x
  obtain ⟨c, d⟩ := y
  obtain ⟨e, f⟩ := z
  simp only [catBytes, Prod.mk.injEq]
  constructor
  · rw [pow_add]
    ring
  · omega

theorem catBytes_zero_left (y : ByteStr) : catBytes (0, 0) y = y := by
  obtain ⟨a, b⟩ := y
  simp [catBytes]

theorem bytesNatCh_append (l₁ l₂ : List Char) :
    bytesNatCh (l₁ ++ l₂) = catBytes (bytesNatCh l₁) (bytesNatCh l₂) := by
  induction l₁ with
  | nil => exact (catBytes_zero_left _).symm
  | cons c cs ih => simp [bytesNatCh, ih, catBytes_assoc]

theorem strBytesNat_append (a b : String) :
    strBytesNat (a ++ b) = catBytes (strBytesNat a) (strBytesNat b) := by
  simpa [strBytesNat] using bytesNatCh_append a.data b.data

theorem bytesNatList_eq_join (l : List String) :
    bytesNatList l = strBytesNat (String.join l) := by
  have key : ∀ (l : List String) (acc : ByteStr) (s : String),
      acc = strBytesNat s →
      l.foldl (fun acc t => catBytes acc (strBytesNat t)) acc =
        strBytesNat (l.foldl (fun a t => a ++ t) s) := by
    intro l
    induction l with
    | nil => intro acc s h; simpa using h
    | cons t ts ih =>
      intro acc s h
      simp only [List.foldl_cons]
      exact ih _ (s ++ t) (by rw [h, strBytesNat_append])
  have h0 : ((0, 0) : ByteStr) = strBytesNat "" := by simp [strBytesNat, bytesNatCh]
  simpa [bytesNatList, String.join] using key l (0, 0) "" h0

/-- The piecewise digest agrees with the digest of the joined string. -/
theorem sha256hexPieces_eq (l : List String) :
    sha256hexPieces l = sha256hex (String.join l) := by
  simp [sha256hexPieces, sha256hex, bytesNatList_eq_join]

theorem string_join_cons (s : String) (l : List String) :
    String.join (s :: l) = s ++ String.join l := by
  apply String.ext
  simp [String.join_eq]

/-- The piecewise rehash agrees with `rehash_fragment` on the joined thought. -/
theorem rehash_fragmentPieces_eq (o n : String) (t : List String) :
    rehash_fragmentPieces o n t = rehash_fragment o n (String.join t) := by
  rw [rehash_fragmentPieces, sha256hexPieces_eq, rehash_fragment]
  congr 1
  simp only [string_join_cons]
  simp [String.append_assoc]

/-! ## Rendering helpers (Python formatting and `json.dumps`)

These model the Python formatting builtins for the values this program
produces: the scores are non-negative multiples of 1/100 (exactly
representable in the observable float behaviour after `round(_, 2)`), and all
rendered text is ASCII. -/

/-- Python `f"{x:.2f}"` for the non-negative scores that occur. -/
def fmt2 (q : ℚ) : String :=
  let n := (rhe (q * 100)).toNat
  toString (n / 100) ++ "." ++
    (if n % 100 < 10 then "0" ++ toString (n % 100) else toString (n % 100))

/-- Python `repr` of a float (as rendered by `json.dumps`) for the
non-negative multiples of 1/100 that occur. -/
def qRepr (q : ℚ) : String :=
  let n := (rhe (q * 100)).toNat
  if n % 100 = 0 then toString (n / 100) ++ ".0"
  else if n % 10 = 0 then toString (n / 100) ++ "." ++ toString (n / 10 % 10)
  else toString (n / 100) ++ "." ++
    (if n % 100 < 10 then "0" ++ toString (n % 100) else toString (n % 100))

/-- Python `repr` of a list of plain strings (`['chunk_1', 'chunk_2']`). -/
def pyListRepr (l : List String) : String :=
  if l = [] then "[]" else "['" ++ String.intercalate "', '" l ++ "']"

/-- Four lowercase hex digits. -/
def hex4 (n : Nat) : String :=
  ⟨[hexDigit ((n >>> 12) &&& 0xF), hexDigit ((n >>> 8) &&& 0xF),
    hexDigit ((n >>> 4) &&& 0xF), hexDigit (n &&& 0xF)]⟩

/-- One character of a JSON string as `json.dumps` renders it (BMP range). -/
def jsonEscapeChar (c : Char) : String :=
  if c = '\\' then "\\\\"
  else if c = '"' then "\\\""
  else if c = '\n' then "\\n"
  else if c = '\t' then "\\t"
  else if c = '\r' then "\\r"
  else if c = '\x08' then "\\b"
  else if c = '\x0c' then "\\f"
  else if c.toNat < 0x20 ∨ 0x7e < c.toNat then "\\u" ++ hex4 c.toNat
  else String.singleton c

/-- A JSON string literal as `json.dumps` renders it. -/
def jsonStr (s : String) : String :=
  "\"" ++ String.join (s.data.map jsonEscapeChar) ++ "\""

/-- `json.dumps(d, indent=2)` for a string-to-string dict at top level. -/
def jsonDumpsDict (d : PyDict) : String :=
  if d = [] then "\x7b\x7d"
  else "\x7b\n" ++
    String.intercalate ",\n" (d.map (fun p => "  " ++ jsonStr p.1 ++ ": " ++ jsonStr p.2)) ++
    "\n\x7d"

/-- One shared-state value as `json.dumps(_, indent=2)` renders it at depth 1. -/
def jsonValRender : PyVal → String
  | .vs s => jsonStr s
  | .vn q => qRepr q
  | .vd d =>
    if d = [] then "\x7b\x7d"
    else "\x7b\n" ++
      String.intercalate ",\n" (d.map (fun p => "    " ++ jsonStr p.1 ++ ": " ++ jsonStr p.2)) ++
      "\n  \x7d"

/-- `json.dumps(state, indent=2)` for the shared state. -/
def jsonDumpsState (st : PyState) : String :=
  if st = [] then "\x7b\x7d"
  else "\x7b\n" ++
    String.intercalate ",\n" (st.map (fun p => "  " ++ jsonStr p.1 ++ ": " ++ jsonValRender p.2)) ++
    "\n\x7d"

/-! ## The eight agents -/

/-- The eight concrete agent classes of the program. -/
inductive AgentId where
  | cube | wave | loop | core | work | code | line | coin
deriving DecidableEq, Repr

/-- The `name` each agent is instantiated with in `run_orchestration`
(lines 309-318). -/
def agentName : AgentId → String
  | .cube => "CubeOrchestrator"
  | .wave => "WavePromiser"
  | .loop => "LoopAdvisor"
  | .core => "CoreExecutor"
  | .work => "WorkValidator"
  | .code => "CodeComposer"
  | .line => "LineResourceManager"
  | .coin => "CoinRequestSecurer"

/-- `self.role = self.__class__.__name__.lower()` (line 97). -/
def agentRole : AgentId → String
  | .cube => "cube"
  | .wave => "wave"
  | .loop => "loop"
  | .core => "core"
  | .work => "work"
  | .code => "code"
  | .line => "line"
  | .coin => "coin"

/-- `AGENT_MODELS` (lines 23-32). -/
def AGENT_MODELS : PyDict :=
  [("cube", "cube"), ("core", "core"), ("loop", "loop"), ("wave", "promiser"),
   ("line", "line"), ("coin", "coin"), ("code", "code"), ("work", "work")]

/-- `AGENT_MODELS.get(self.role, "mistral")` (line 98). -/
def agentModel (a : AgentId) : String :=
  (dictGet AGENT_MODELS (agentRole a)).getD "mistral"

/-- The fixed action vocabulary of the decision maker (line 179). -/
def actionList : List String :=
  ["PLAN", "EXECUTE", "VALIDATE", "REFINE", "COMPOSE", "COMPLETE"]

/-! ## Rendered instructions (`_create_meta_prompt` of each agent)

Each instruction is transcribed from the source f-string and represented as
its list of concatenation pieces; `metaPrompt` below joins them.  (The piece
list keeps every kernel computation over the instruction text shallow.) -/

/-- `Cube._create_meta_prompt` (lines 152-175). -/
def metaPromptPiecesCube (basePrompt : String) (st : PyState) : List String :=
  ["You are 'cube', the supreme orchestrator of a multi-agent system. Your task is to analyze the current state of the project and decide the next optimal action to drive the project towards successfully achieving the 'Orchestration Goal' while minimizing the 'Current Entropy Score'.\n",
   "\n        Based on the following status report, you must choose one of these actions: 'PLAN', 'EXECUTE', 'VALIDATE', 'REFINE', 'COMPOSE', or 'COMPLETE'.\n",
   "        'COMPLETE' should only be chosen if the 'final_script' is present and seems to meet the 'Success Criteria' and 'Current Entropy Score' is low (e.g., < 0.3).\n",
   "\n        Status Report:\n        ",
   "\nOrchestration Goal: ", basePrompt,
   "\nCurrent Action: ", getStr st "current_action" "INIT",
   "\nCurrent Entropy Score: ", fmt2 (getNum st "current_entropy_score" 0),
   "\nPlan: ", getStr st "plan" "None yet.",
   "\nSuccess Criteria: ", getStr st "success_criteria" "None yet.",
   "\nValid Chunks: ",
   toString ((getDict st "validations").filter (fun p => p.2 == "VALID")).length,
   "\nInvalid Chunks: ",
   toString ((getDict st "validations").filter (fun p => pyStartsWith "INVALID" p.2)).length,
   "\nLast Advice: ", getStr st "advice" "None.",
   "\nPrompt Integrity: ", getStr st "prompt_integrity" "Not checked.",
   "\nResource Management: ", getStr st "resource_management" "Not assessed.",
   "\n        ",
   "\n\n        Your decision MUST be a single word, representing the chosen action. Do not add any other text.\n        "]

/-- `Wave._create_meta_prompt` (lines 185-191). -/
def metaPromptPiecesWave (basePrompt : String) (st : PyState) : List String :=
  ["You are 'wave', the promiser. Your task is to define the success criteria for the prompt: '",
   basePrompt,
   "'.\nBreak it down into a clear, numbered list of concise requirements. Focus on measurable and achievable criteria.\n",
   "Example: 1. Script must be in Python. 2. It must achieve X. 3. It must handle error Y.\n",
   "Current success criteria: ", getStr st "success_criteria" "None",
   ". Refine if needed, otherwise re-state.\n",
   "Your output MUST be ONLY the numbered list of success criteria, with no additional conversational text.\n"]

/-- `Core._create_meta_prompt` (lines 197-206). -/
def metaPromptPiecesCore (basePrompt : String) (st : PyState) : List String :=
  ["You are 'core', the code executor. Your task is to write a single, logical chunk of Python code to help achieve the goal.\n",
   "Goal: ", basePrompt,
   "\nSuccess Criteria: ", getStr st "success_criteria" "None",
   "\nCurrent Code Plan: ", getStr st "plan" "None",
   "\nExisting Chunks: ", pyListRepr ((getDict st "code_chunks").map Prod.fst),
   "\nAdvisor's Last Remark: ", getStr st "advice" "None",
   "\nWrite the next necessary code chunk. Enclose the code within ```python ... ```.\n",
   "Your output MUST contain ONLY the Python code chunk, formatted strictly within ```python ... ``` tags, with no extra conversational text.\n"]

/-- `Work._create_meta_prompt` (lines 215-224). -/
def metaPromptPiecesWork (basePrompt : String) (st : PyState) : List String :=
  let last_chunk_id := getStr st "last_chunk_id" "None"
  ["You are 'work', the validator. Analyze the following Python code chunk for correctness, syntax errors, and adherence to the plan and success criteria.\n",
   "Code Chunk ('", last_chunk_id, "'):\n",
   (dictGet (getDict st "code_chunks") last_chunk_id).getD "No new chunk to validate.",
   "\n\nSuccess Criteria: ", getStr st "success_criteria" "None",
   "\nRespond STRICTLY with 'VALID' if it's good, or 'INVALID:' followed by a brief, actionable reason for rejection. Do not include any other text.\n"]

/-- `Loop._create_meta_prompt` (lines 236-245). -/
def metaPromptPiecesLoop (basePrompt : String) (st : PyState) : List String :=
  ["You are 'loop', the advisor. Review the overall plan, recent progress, and current shared state.\n",
   "Goal: ", basePrompt,
   "\nPlan: ", getStr st "plan" "Not defined yet.",
   "\nValidated Chunks: ",
   pyListRepr (((getDict st "validations").filter (fun p => p.2 == "VALID")).map Prod.fst),
   "\nFailed Chunks: ",
   pyListRepr (((getDict st "validations").filter (fun p => pyStartsWith "INVALID" p.2)).map Prod.fst),
   "\nShared State Summary: ",
   jsonDumpsState (st.filter (fun p => !(p.1 == "code_chunks" || p.1 == "validations"))),
   "\nBased on this, provide a concise, actionable next step or refinement for the plan. If no plan exists, create one. Focus on overcoming obstacles or moving towards completion.\n",
   "Your output MUST be a clear, concise instruction or a refined plan.\n"]

/-- The chunk dict the assembler is shown (line 255): exactly the chunks
whose validation verdict is `"VALID"`. -/
def validChunks (st : PyState) : PyDict :=
  (getDict st "code_chunks").filter
    (fun p => dictGet (getDict st "validations") p.1 == some "VALID")

/-- `Code._create_meta_prompt` (lines 252-259). -/
def metaPromptPiecesCode (basePrompt : String) (st : PyState) : List String :=
  ["You are 'code', the composer. Your task is to assemble the validated code chunks into a single, coherent, and executable Python script.\n",
   "Validated Chunks:\n",
   jsonDumpsDict (validChunks st),
   "\nSuccess Criteria: ", getStr st "success_criteria" "None",
   "\nEnsure all necessary imports are at the top. Add appropriate function definitions and a main execution block (e.g., `if __name__ == \"__main__\":`). Ensure correct indentation, logical flow, and order for a fully functional script.\n",
   "Enclose the final script within ```python ... ```. Your output MUST contain ONLY the Python script, formatted strictly within ```python ... ``` tags, with no extra conversational text.\n"]

/-- `Line._create_meta_prompt` (lines 266-274). -/
def metaPromptPiecesLine (basePrompt : String) (st : PyState) : List String :=
  ["You are 'line', the resource manager. Your task is to analyze the current state of the project, including the initial prompt and any progress made, to identify potential complexity, scope creep, or resource inefficiencies.\n",
   "\nCurrent Goal: ", basePrompt,
   "\nCurrent State: ", jsonDumpsState st,
   "\n\nBased on this, provide a concise assessment of complexity and scope. If any issues are found, suggest specific, actionable adjustments needed to keep the project manageable and efficient. Focus on resource optimization and complexity reduction. If no issues, state 'RESOURCE MANAGEMENT OK'.\n",
   "Your output MUST be a summary of complexity/scope and/or actionable suggestions, or 'RESOURCE MANAGEMENT OK'.\n"]

/-- `Coin._create_meta_prompt` (lines 279-287). -/
def metaPromptPiecesCoin (basePrompt : String) (st : PyState) : List String :=
  ["You are 'coin', the request securer. Your task is to validate the integrity and safety of the initial prompt and the current shared state. Identify any ambiguities, security vulnerabilities, ethical concerns, or potential for misuse.\n",
   "\nInitial Prompt: ", basePrompt,
   "\nCurrent State: ", jsonDumpsState st,
   "\n\nBased on this analysis, provide a concise integrity report. If there are concerns, list them clearly. If the prompt and state appear sound, state 'INTEGRITY OK'.\n",
   "Your output MUST be a concise integrity report or 'INTEGRITY OK'.\n"]

/-- The pieces of an agent's rendered instruction. -/
def metaPromptPieces : AgentId → String → PyState → List String
  | .cube => metaPromptPiecesCube
  | .wave => metaPromptPiecesWave
  | .loop => metaPromptPiecesLoop
  | .core => metaPromptPiecesCore
  | .work => metaPromptPiecesWork
  | .code => metaPromptPiecesCode
  | .line => metaPromptPiecesLine
  | .coin => metaPromptPiecesCoin

/-- An agent's rendered instruction (`_create_meta_prompt`). -/
def metaPrompt (a : AgentId) (basePrompt : String) (st : PyState) : String :=
  String.join (metaPromptPieces a basePrompt st)

/-! ## State folds (`_process_output` of each agent) -/

/-- `Cube._process_output` (lines 176-182): strip and uppercase the output,
clamp to the action vocabulary (falling back to `"PLAN"` with a logged
warning, which the embedding omits), and store it under `current_action`. -/
def cubeProcess (output : String) (st : PyState) : PyState :=
  let action := pyUpper (pyStrip output)
  let action := if actionList.contains action then action else "PLAN"
  dSet st "current_action" (.vs action)

/-- `Wave._process_output` (lines 192-194). -/
def waveProcess (output : String) (st : PyState) : PyState :=
  dSet st "success_criteria" (.vs output)

/-- The fenced-code extraction shared by `Core._process_output` (line 209) and
`Code._process_output` (line 262):
`output.split("```python")[1].split("```")[0].strip()`. -/
def extractFenced (output : String) : String :=
  pyStrip ⟨(pySplitCh "```".data ((pySplitCh "```python".data output.data).getD 1 [])).getD 0 []⟩

/-- `Core._process_output` (lines 207-212).  `state.setdefault('code_chunks',
{})[chunk_id] = code_chunk` replaces the dict value in place when the key
exists and appends it otherwise, which is exactly `dSet`. -/
def coreProcess (output : String) (st : PyState) : PyState :=
  if pyContains "```python" output then
    let code_chunk := extractFenced output
    let chunk_id := "chunk_" ++ toString ((getDict st "code_chunks").length + 1)
    let st := dSet st "code_chunks" (.vd (dictSet (getDict st "code_chunks") chunk_id code_chunk))
    dSet st "last_chunk_id" (.vs chunk_id)
  else st

/-- `Work._process_output` (lines 225-233).  The program only ever stores
strings under `last_chunk_id`, and `if last_chunk_id:` is Python truthiness:
absent or empty means no-op (after the unconditional `setdefault`). -/
def workProcess (output : String) (st : PyState) : PyState :=
  let st := dSetdefault st "validations" (.vd [])
  let last_chunk_id := getStr st "last_chunk_id" ""
  if last_chunk_id = "" then st
  else if pyStartsWith "VALID" output then
    dSet st "validations" (.vd (dictSet (getDict st "validations") last_chunk_id "VALID"))
  else
    let st := dSet st "validations"
      (.vd (dictSet (getDict st "validations") last_chunk_id ("INVALID - " ++ output)))
    dSet st "advice" (.vs ("Validation failed for " ++ last_chunk_id ++ ": " ++ output))

/-- `Loop._process_output` (lines 246-249). -/
def loopProcess (output : String) (st : PyState) : PyState :=
  let st :=
    if !(st.any (fun p => p.1 == "plan")) || pyContains "refinement" (pyLower output) then
      dSet st "plan" (.vs output)
    else st
  dSet st "advice" (.vs output)

/-- `Code._process_output` (lines 260-263). -/
def codeProcess (output : String) (st : PyState) : PyState :=
  if pyContains "```python" output then
    dSet st "final_script" (.vs (extractFenced output))
  else st

/-- `Line._process_output` (lines 275-276). -/
def lineProcess (output : String) (st : PyState) : PyState :=
  dSet st "resource_management" (.vs output)

/-- `Coin._process_output` (lines 288-289). -/
def coinProcess (output : String) (st : PyState) : PyState :=
  dSet st "prompt_integrity" (.vs output)

/-- The fold of each agent. -/
def processOutput : AgentId → String → PyState → PyState
  | .cube => cubeProcess
  | .wave => waveProcess
  | .loop => loopProcess
  | .core => coreProcess
  | .work => workProcess
  | .code => codeProcess
  | .line => lineProcess
  | .coin => coinProcess

/-! ## The orchestration engine (`run_orchestration`, lines 293-389) -/

/-- The record `Agent.reason_and_act` returns (lines 131-139), extended with
the origin hash the invocation was given (its argument, recorded for the
provenance statements below). -/
structure InvRec where
  agent : String
  role : String
  model : String
  output : String
  origin : String
  prompt : String
  fp : String
deriving DecidableEq

instance : Inhabited InvRec :=
  ⟨{agent := "", role := "", model := "", output := "", origin := "", prompt := "", fp := ""}⟩

/-- The inference service as an oracle: the text the model returned for a
given cycle number and agent (a transport failure is represented by the
in-band error string the program substitutes, line 126). -/
def Oracle := Nat → AgentId → String

/-- `Agent.reason_and_act` (lines 101-139): render the instruction, extend
the hash chain with (origin, agent name, rendered instruction), obtain the
model output, fold it into the state, and return the result record. -/
def reasonAndAct (a : AgentId) (basePrompt origin : String) (st : PyState)
    (response : String) : InvRec × PyState :=
  let pieces := metaPromptPieces a basePrompt st
  let fp := rehash_fragmentPieces origin (agentName a) pieces
  ({agent := agentName a, role := agentRole a, model := agentModel a,
    output := response, origin := origin, prompt := String.join pieces, fp := fp},
   processOutput a response st)

/-- The role subset the engine fans out to for an action (lines 342-360),
including the `last_chunk_id` guard of `VALIDATE`. -/
def fanoutRoles (action : String) (st : PyState) : List AgentId :=
  if action = "PLAN" then [.wave, .loop, .line, .coin]
  else if action = "EXECUTE" then [.core]
  else if action = "VALIDATE" then (if dTruthy st "last_chunk_id" then [.work] else [])
  else if action = "REFINE" then [.loop]
  else if action = "COMPOSE" then [.code]
  else []

/-- One cycle of the loop, as recorded for the statements below. -/
structure CycleRec where
  index : Nat
  entropy : ℚ
  headIn : String
  cubeInv : InvRec
  action : String
  fanout : List InvRec
  headOut : String
deriving DecidableEq

/-- One iteration of the `for cycle in range(1, max_cycles + 1)` body
(lines 323-381): compute and store the entropy, run the decision maker, read
the clamped action, break on `COMPLETE`, otherwise fan out.  All fan-out
agents render from the state as it stands after the decision maker's fold and
receive the decision maker's new chain head as origin (the tasks are created
before any of them runs); their folds are applied in task order and the last
agent's fingerprint becomes the new chain head (lines 370-374).  Returns the
cycle record, the new chain head, the new state, and whether the loop broke. -/
def runCycle (oracle : Oracle) (basePrompt : String) (i : Nat) (h : String)
    (st : PyState) : CycleRec × String × PyState × Bool :=
  let e := calculate_entropy st
  let st1 := dSet st "current_entropy_score" (.vn e)
  let rr := reasonAndAct .cube basePrompt h st1 (oracle i .cube)
  let cinv := rr.1
  let st2 := rr.2
  let h1 := cinv.fp
  let action := getStr st2 "current_action" "PLAN"
  if action = "COMPLETE" then
    ({index := i, entropy := e, headIn := h, cubeInv := cinv, action := action,
      fanout := [], headOut := h1}, h1, st2, true)
  else
    let roles := fanoutRoles action st2
    let invs := roles.map (fun a => (reasonAndAct a basePrompt h1 st2 (oracle i a)).1)
    let st3 := roles.foldl (fun s a => processOutput a (oracle i a) s) st2
    let h2 := (invs.map (fun r => r.fp)).getLastD h1
    ({index := i, entropy := e, headIn := h, cubeInv := cinv, action := action,
      fanout := invs, headOut := h2}, h2, st3, false)

/-- The cycle loop, driven by the remaining fuel (`max_cycles - i + 1`). -/
def runLoop (oracle : Oracle) (basePrompt : String) :
    Nat → Nat → String → PyState → List CycleRec × String × PyState
  | 0, _, h, st => ([], h, st)
  | fuel + 1, i, h, st =>
    let r := runCycle oracle basePrompt i h st
    if r.2.2.2 then ([r.1], r.2.1, r.2.2.1)
    else
      let rest := runLoop oracle basePrompt fuel (i + 1) r.2.1 r.2.2.1
      (r.1 :: rest.1, rest.2.1, rest.2.2)

/-- The initial shared state (lines 301-305). -/
def initState : PyState :=
  [("status", .vs "STARTING"), ("code_chunks", .vd []), ("validations", .vd [])]

/-- The placeholder the engine prints when no final script was produced
(line 388). -/
def noScriptMsg : String := "# Composition failed. No final script was generated."

/-- `run_orchestration` (lines 293-389): genesis hash, at most 10 cycles, and
the final deliverable (`final_script`, or the placeholder).  Returns the
cycle trace, the final state and the final deliverable. -/
def run_orchestration (oracle : Oracle) (initial_prompt : String) :
    List CycleRec × PyState × String :=
  let genesis := create_genesis_hash initial_prompt
  let r := runLoop oracle initial_prompt 10 1 genesis initState
  (r.1, r.2.2, getStr r.2.2 "final_script" noScriptMsg)

/-! ## Frame lemmas for the state getters -/

theorem getStr_dSet_ne (st : PyState) (k k' dflt : String) (v : PyVal) (h : k' ≠ k) :
    getStr (dSet st k v) k' dflt = getStr st k' dflt := by
  simp [getStr, dGet, dSet, alGet_alSet_ne st k k' v h]

theorem getStr_dSet_self (st : PyState) (k dflt s : String) :
    getStr (dSet st k (.vs s)) k dflt = s := by
  simp [getStr, dGet, dSet, alGet_alSet_self]

theorem getDict_dSet_ne (st : PyState) (k k' : String) (v : PyVal) (h : k' ≠ k) :
    getDict (dSet st k v) k' = getDict st k' := by
  simp [getDict, dGet, dSet, alGet_alSet_ne st k k' v h]

theorem getDict_dSet_self (st : PyState) (k : String) (d : PyDict) :
    getDict (dSet st k (.vd d)) k = d := by
  simp [getDict, dGet, dSet, alGet_alSet_self]

theorem getNum_dSet_ne (st : PyState) (k k' : String) (dflt : ℚ) (v : PyVal) (h : k' ≠ k) :
    getNum (dSet st k v) k' dflt = getNum st k' dflt := by
  simp [getNum, dGet, dSet, alGet_alSet_ne st k k' v h]

theorem dGet_dSet_ne (st : PyState) (k k' : String) (v : PyVal) (h : k' ≠ k) :
    dGet (dSet st k v) k' = dGet st k' := by
  simp [dGet, dSet, alGet_alSet_ne st k k' v h]

theorem dGet_dSet_self (st : PyState) (k : String) (v : PyVal) :
    dGet (dSet st k v) k = some v := by
  simp [dGet, dSet, alGet_alSet_self]

theorem getStr_dSetdefault_ne (st : PyState) (k k' dflt : String) (v : PyVal) (h : k' ≠ k) :
    getStr (dSetdefault st k v) k' dflt = getStr st k' dflt := by
  simp [getStr, dGet, dSetdefault, alGet_alSetdefault_ne st k k' v h]

theorem getDict_dSetdefault_ne (st : PyState) (k k' : String) (v : PyVal) (h : k' ≠ k) :
    getDict (dSetdefault st k v) k' = getDict st k' := by
  simp [getDict, dGet, dSetdefault, alGet_alSetdefault_ne st k k' v h]

theorem dGet_dSetdefault_ne (st : PyState) (k k' : String) (v : PyVal) (h : k' ≠ k) :
    dGet (dSetdefault st k v) k' = dGet st k' := by
  simp [dGet, dSetdefault, alGet_alSetdefault_ne st k k' v h]

/-! ## Rounding lemmas -/

theorem rhe_natCast (m : ℕ) : rhe (m : ℚ) = m := by
  rw [rhe]
  rw [if_pos]
  · exact_mod_cast Int.floor_natCast m
  · rw [Int.fract_natCast]
    norm_num

/-- `round(_, 2)` is the identity on multiples of one tenth, which is every
value `calculate_entropy` can produce. -/
theorem round2_tenths (n : ℕ) : round2 ((n : ℚ) / 10) = (n : ℚ) / 10 := by
  have h : ((n : ℚ) / 10) * 100 = ((10 * n : ℕ) : ℚ) := by
    push_cast
    ring
  rw [round2, h, rhe_natCast]
  push_cast
  ring

theorem entropyTerms_tenths (st : PyState) :
    ∃ n : ℕ, integrityTerm st + resourceTerm st + planTerm st + invalidTerm st +
      criteriaTerm st + actionTerm st = (n : ℚ) / 10 := by
  obtain ⟨a, ha⟩ : ∃ a : ℕ, integrityTerm st = (a : ℚ) / 10 := by
    rw [integrityTerm]
    split
    · exact ⟨0, by norm_num⟩
    · exact ⟨5, by norm_num⟩
  obtain ⟨b, hb⟩ : ∃ b : ℕ, resourceTerm st = (b : ℚ) / 10 := by
    rw [resourceTerm]
    split
    · split
      · exact ⟨2, by norm_num⟩
      · exact ⟨4, by norm_num⟩
    · exact ⟨0, by norm_num⟩
  obtain ⟨c, hc⟩ : ∃ c : ℕ, planTerm st = (c : ℚ) / 10 := by
    rw [planTerm]
    split
    · exact ⟨10, by norm_num⟩
    · exact ⟨0, by norm_num⟩
  obtain ⟨d, hd⟩ : ∃ d : ℕ, invalidTerm st = (d : ℚ) / 10 := by
    refine ⟨7 * ((getDict st "validations").filter (fun p => pyStartsWith "INVALID" p.2)).length, ?_⟩
    rw [invalidTerm]
    push_cast
    ring
  obtain ⟨e, he⟩ : ∃ e : ℕ, criteriaTerm st = (e : ℚ) / 10 := by
    rw [criteriaTerm]
    split
    · exact ⟨8, by norm_num⟩
    · exact ⟨0, by norm_num⟩
  obtain ⟨f, hf⟩ : ∃ f : ℕ, actionTerm st = (f : ℚ) / 10 := by
    rw [actionTerm]
    split
    · exact ⟨1, by norm_num⟩
    · split
      · exact ⟨3, by norm_num⟩
      · exact ⟨0, by norm_num⟩
  refine ⟨a + b + c + d + e + f, ?_⟩
  rw [ha, hb, hc, hd, he, hf]
  push_cast
  ring

/-- `calculate_entropy` with the final rounding removed: the rounding never
changes the score. -/
theorem calculate_entropy_eq (st : PyState) :
    calculate_entropy st = integrityTerm st + resourceTerm st + planTerm st +
      invalidTerm st + criteriaTerm st + actionTerm st := by
  obtain ⟨n, hn⟩ := entropyTerms_tenths st
  rw [calculate_entropy, hn, round2_tenths]

/-! ## Claim C3: the decision maker's action clamp -/

/-- C3.  For every output string, the decision-maker's fold normalizes the
output by stripping whitespace and uppercasing; when the result is one of the
six enumeration words it is stored in `current_action` verbatim, and
otherwise `current_action` becomes `"PLAN"` — so `current_action` is always a
member of the fixed enumeration after the fold. -/
theorem cube_action_clamp (output : String) (st : PyState) :
    getStr (cubeProcess output st) "current_action" "" ∈ actionList ∧
    (pyUpper (pyStrip output) ∈ actionList →
      getStr (cubeProcess output st) "current_action" "" = pyUpper (pyStrip output)) ∧
    (pyUpper (pyStrip output) ∉ actionList →
      getStr (cubeProcess output st) "current_action" "" = "PLAN") := by
  have hkey : getStr (cubeProcess output st) "current_action" "" =
      (if actionList.contains (pyUpper (pyStrip output)) = true
       then pyUpper (pyStrip output) else "PLAN") :=
    getStr_dSet_self st "current_action" "" _
  by_cases hmem : pyUpper (pyStrip output) ∈ actionList
  · have hc : actionList.contains (pyUpper (pyStrip output)) = true := List.elem_iff.mpr hmem
    rw [hkey, if_pos hc]
    exact ⟨hmem, fun _ => rfl, fun hn => absurd hmem hn⟩
  · have hc : ¬ actionList.contains (pyUpper (pyStrip output)) = true := by
      intro h
      exact absurd (List.elem_iff.mp h) hmem
    rw [hkey, if_neg hc]
    exact ⟨by decide, fun hm => absurd hm hmem, fun _ => rfl⟩

/-- Witness for C3: a garbage decision is clamped to `PLAN`, and a padded,
lower-case `complete` is normalized and accepted. -/
theorem cube_action_clamp_witness :
    getStr (cubeProcess " banana " initState) "current_action" "" = "PLAN" ∧
    getStr (cubeProcess "  complete\n" initState) "current_action" "" = "COMPLETE" := by
  constructor
  · exact (cube_action_clamp " banana " initState).2.2 (by decide)
  · exact (cube_action_clamp "  complete\n" initState).2.1 (by decide)

/-! ## Claim C4: entropy monotonicity -/

/-- C4.  Appending one more invalid-verdict entry to `validations` (all other
fields unchanged) never decreases the entropy score, and clearing a non-empty
`plan` to the empty string (all other fields unchanged) increases the score
by exactly the plan-absence penalty 1.0. -/
theorem entropy_monotone (st : PyState) (v : PyDict) (key val p : String) :
    (dGet st "validations" = some (.vd v) → pyStartsWith "INVALID" val = true →
      calculate_entropy st ≤
        calculate_entropy (dSet st "validations" (.vd (v ++ [(key, val)])))) ∧
    (dGet st "plan" = some (.vs p) → p ≠ "" →
      calculate_entropy (dSet st "plan" (.vs "")) = calculate_entropy st + 1) := by
  constructor
  · intro hv hval
    set st' := dSet st "validations" (.vd (v ++ [(key, val)])) with hst'
    have hint : integrityTerm st' = integrityTerm st := by
      rw [integrityTerm, integrityTerm, hst', getStr_dSet_ne _ _ _ _ _ (by decide)]
    have hres : resourceTerm st' = resourceTerm st := by
      rw [resourceTerm, resourceTerm, hst', getStr_dSet_ne _ _ _ _ _ (by decide)]
    have hplan : planTerm st' = planTerm st := by
      rw [planTerm, planTerm, hst', getStr_dSet_ne _ _ _ _ _ (by decide)]
    have hcrit : criteriaTerm st' = criteriaTerm st := by
      rw [criteriaTerm, criteriaTerm, hst', getStr_dSet_ne _ _ _ _ _ (by decide)]
    have hact : actionTerm st' = actionTerm st := by
      rw [actionTerm, actionTerm, hst', getStr_dSet_ne _ _ _ _ _ (by decide),
        getDict_dSet_ne _ _ _ _ (by decide)]
    have hvd : getDict st "validations" = v := by
      rw [getDict, hv]
    have hvd' : getDict st' "validations" = v ++ [(key, val)] := by
      rw [hst', getDict_dSet_self]
    have hinv : invalidTerm st' = invalidTerm st + 0.7 := by
      rw [invalidTerm, invalidTerm, hvd, hvd', List.filter_append]
      simp only [List.filter, hval, List.length_append, List.length_cons, List.length_nil]
      push_cast
      ring
    rw [calculate_entropy_eq, calculate_entropy_eq, hint, hres, hplan, hcrit, hact, hinv]
    linarith
  · intro hp hpne
    set st' := dSet st "plan" (.vs "") with hst'
    have hint : integrityTerm st' = integrityTerm st := by
      rw [integrityTerm, integrityTerm, hst', getStr_dSet_ne _ _ _ _ _ (by decide)]
    have hres : resourceTerm st' = resourceTerm st := by
      rw [resourceTerm, resourceTerm, hst', getStr_dSet_ne _ _ _ _ _ (by decide)]
    have hcrit : criteriaTerm st' = criteriaTerm st := by
      rw [criteriaTerm, criteriaTerm, hst', getStr_dSet_ne _ _ _ _ _ (by decide)]
    have hact : actionTerm st' = actionTerm st := by
      rw [actionTerm, actionTerm, hst', getStr_dSet_ne _ _ _ _ _ (by decide),
        getDict_dSet_ne _ _ _ _ (by decide)]
    have hinv : invalidTerm st' = invalidTerm st := by
      rw [invalidTerm, invalidTerm, hst', getDict_dSet_ne _ _ _ _ (by decide)]
    have hplan0 : planTerm st = 0 := by
      rw [planTerm, getStr, hp, if_neg hpne]
    have hplan1 : planTerm st' = 1.0 := by
      rw [planTerm, hst', getStr_dSet_self, if_pos rfl]
    rw [calculate_entropy_eq, calculate_entropy_eq, hint, hres, hcrit, hact, hinv,
      hplan0, hplan1]
    ring

/-- Witness for C4 at a concrete state. -/
theorem entropy_monotone_witness :
    (calculate_entropy [("validations", PyVal.vd []), ("plan", PyVal.vs "a plan")] ≤
      calculate_entropy (dSet [("validations", PyVal.vd []), ("plan", PyVal.vs "a plan")]
        "validations" (.vd ([] ++ [("chunk_1", "INVALID - bad")])))) ∧
    calculate_entropy (dSet [("validations", PyVal.vd []), ("plan", PyVal.vs "a plan")]
        "plan" (.vs "")) =
      calculate_entropy [("validations", PyVal.vd []), ("plan", PyVal.vs "a plan")] + 1 := by
  constructor
  · exact (entropy_monotone [("validations", PyVal.vd []), ("plan", PyVal.vs "a plan")]
      [] "chunk_1" "INVALID - bad" "a plan").1 (by decide) (by decide)
  · exact (entropy_monotone [("validations", PyVal.vd []), ("plan", PyVal.vs "a plan")]
      [] "chunk_1" "INVALID - bad" "a plan").2 (by decide) (by decide)

/-! ## Claim C5: the integrity penalty -/

/-- Counterexample to C5 as stated: in the empty state no integrity report
has been produced (`prompt_integrity` is absent), yet the integrity penalty
is added — `integrityTerm` is 0.5, not 0. -/
theorem integrity_penalty_counterexample :
    ¬ ((dGet ([] : PyState) "prompt_integrity" = none ∨
        dGet ([] : PyState) "prompt_integrity" = some (.vs "")) →
       integrityTerm [] = 0) := by
  intro h
  have := h (Or.inl (by decide))
  have h2 : integrityTerm ([] : PyState) = 0.5 := by
    have hc : pyContains "INTEGRITY OK" (getStr ([] : PyState) "prompt_integrity" "") = false := by
      decide
    rw [integrityTerm, hc]
    simp
  rw [h2] at this
  norm_num at this

/-- C5 as amended.  The entropy score is the plain sum of its six penalty
terms, the integrity penalty is zero exactly when the integrity report
(taken as empty when absent) contains the `'INTEGRITY OK'` marker, and in
particular the penalty of 0.5 IS added whenever the report is absent or
empty. -/
theorem integrity_penalty (st : PyState) :
    calculate_entropy st = integrityTerm st + resourceTerm st + planTerm st +
      invalidTerm st + criteriaTerm st + actionTerm st ∧
    (integrityTerm st = 0 ↔
      pyContains "INTEGRITY OK" (getStr st "prompt_integrity" "") = true) ∧
    ((dGet st "prompt_integrity" = none ∨ dGet st "prompt_integrity" = some (.vs "")) →
      integrityTerm st = 0.5) := by
  refine ⟨calculate_entropy_eq st, ?_, ?_⟩
  · rw [integrityTerm]
    split
    · rename_i h
      exact ⟨fun _ => h, fun _ => rfl⟩
    · rename_i h
      constructor
      · intro h05
        norm_num at h05
      · intro hc
        exact absurd hc h
  · intro h
    have hempty : getStr st "prompt_integrity" "" = "" := by
      rcases h with h | h <;> rw [getStr, h]
    rw [integrityTerm, hempty]
    rw [if_neg (by decide)]

/-- Witness for C5 (amended): in the initial state the report is absent and
the penalty is charged. -/
theorem integrity_penalty_witness : integrityTerm initState = 0.5 :=
  (integrity_penalty initState).2.2 (Or.inl (by decide))

/-! ## Claim C8: the code checker without a pending chunk -/

/-- Counterexample to C8 as stated: on a state that does not yet have a
`validations` field (and has no `last_chunk_id`), the fold is NOT a complete
no-op — the unconditional `state.setdefault('validations', {})` adds the
`validations` field. -/
theorem work_noop_counterexample : workProcess "VALID" [] ≠ [] := by decide

/-- C8 as amended.  When `last_chunk_id` is unset and the state already has a
`validations` field (as every state touched by the engine does — the engine
creates it at start-up), the code-checker's fold leaves the state completely
unchanged; when the `validations` field is absent it is initialized to the
empty dict and nothing else changes. -/
theorem work_noop (st : PyState) (output : String)
    (hlast : dGet st "last_chunk_id" = none) :
    ((dGet st "validations").isSome → workProcess output st = st) ∧
    (dGet st "validations" = none →
      workProcess output st = st ++ [("validations", .vd [])]) := by
  have hguard : ∀ st₁ : PyState, dGet st₁ "last_chunk_id" = none →
      getStr st₁ "last_chunk_id" "" = "" := by
    intro st₁ h
    rw [getStr, h]
  constructor
  · intro hval
    rw [workProcess]
    have hsd : dSetdefault st "validations" (.vd []) = st := alSetdefault_of_get st _ _ hval
    rw [hsd, hguard st hlast, if_pos rfl]
  · intro hval
    rw [workProcess]
    have hsd : dSetdefault st "validations" (.vd []) = st ++ [("validations", .vd [])] :=
      alGet_alSetdefault_absent st _ _ hval
    rw [hsd]
    have hlast' : dGet (st ++ [("validations", PyVal.vd [])]) "last_chunk_id" = none := by
      rw [show st ++ [("validations", PyVal.vd [])] = dSetdefault st "validations" (.vd []) from hsd.symm,
        dGet_dSetdefault_ne st _ _ _ (by decide)]
      exact hlast
    rw [hguard _ hlast', if_pos rfl]

/-- Witness for C8 (amended): on the engine's initial state (which has the
`validations` field) the fold with no pending chunk changes nothing. -/
theorem work_noop_witness : workProcess "looks VALID to me" initState = initState :=
  (work_noop initState "looks VALID to me" (by decide)).1 (by decide)

/-! ## Claim C9: the code checker's prefix classification -/

/-- C9.  With a pending chunk, the code-checker's fold classifies purely by
prefix: any output starting with `"VALID"` (so also `"VALIDATION FAILED"`) is
recorded as exactly `"VALID"` for that chunk and leaves `advice` untouched;
any other output is recorded as `"INVALID - <full output>"` and additionally
overwrites `advice` with the failure message. -/
theorem work_prefix_classification (st : PyState) (output cid : String)
    (h : dGet st "last_chunk_id" = some (.vs cid)) (hne : cid ≠ "") :
    (pyStartsWith "VALID" output = true →
      dictGet (getDict (workProcess output st) "validations") cid = some "VALID" ∧
      dGet (workProcess output st) "advice" = dGet st "advice") ∧
    (pyStartsWith "VALID" output = false →
      dictGet (getDict (workProcess output st) "validations") cid =
        some ("INVALID - " ++ output) ∧
      dGet (workProcess output st) "advice" =
        some (.vs ("Validation failed for " ++ cid ++ ": " ++ output))) := by
  rw [workProcess]
  have hlast : getStr (dSetdefault st "validations" (.vd [])) "last_chunk_id" "" = cid := by
    rw [getStr, dGet_dSetdefault_ne st _ _ _ (by decide), h]
  rw [hlast, if_neg hne]
  constructor
  · intro hv
    rw [if_pos hv]
    constructor
    · rw [getDict_dSet_self, dictGet]
      exact alGet_alSet_self _ _ _
    · rw [dGet_dSet_ne _ _ _ _ (by decide), dGet_dSetdefault_ne st _ _ _ (by decide)]
  · intro hv
    rw [if_neg (by rw [hv]; exact Bool.false_ne_true)]
    constructor
    · rw [getDict_dSet_ne _ _ _ _ (by decide), getDict_dSet_self, dictGet]
      exact alGet_alSet_self _ _ _
    · rw [dGet_dSet_self]

/-- Witness for C9: `"VALIDATION FAILED: bad"` starts with `"VALID"` and is
therefore recorded as a pass, while `"broken"` is recorded as invalid and
overwrites `advice`. -/
theorem work_prefix_classification_witness :
    dictGet (getDict (workProcess "VALIDATION FAILED: bad"
      [("last_chunk_id", PyVal.vs "chunk_1")]) "validations") "chunk_1" = some "VALID" ∧
    dictGet (getDict (workProcess "broken"
      [("last_chunk_id", PyVal.vs "chunk_1")]) "validations") "chunk_1" =
      some ("INVALID - " ++ "broken") := by
  constructor
  · exact ((work_prefix_classification [("last_chunk_id", PyVal.vs "chunk_1")]
      "VALIDATION FAILED: bad" "chunk_1" (by decide) (by decide)).1 (by decide)).1
  · exact ((work_prefix_classification [("last_chunk_id", PyVal.vs "chunk_1")]
      "broken" "chunk_1" (by decide) (by decide)).2 (by decide)).1

/-! ## Claim C10: fenced-output extraction accepts unterminated fences -/

/-- The conclusion C10 speaks of: the extracted text is `x` stripped, the
code-producer appends it as a new chunk (setting the pending chunk id), and
the assembler writes it to `final_script`. -/
def storesExtract (output : String) (st : PyState) (x : List Char) : Prop :=
  extractFenced output = pyStrip ⟨x⟩ ∧
  coreProcess output st =
    dSet (dSet st "code_chunks" (.vd (dictSet (getDict st "code_chunks")
        ("chunk_" ++ toString ((getDict st "code_chunks").length + 1)) (pyStrip ⟨x⟩))))
      "last_chunk_id" (.vs ("chunk_" ++ toString ((getDict st "code_chunks").length + 1))) ∧
  codeProcess output st = dSet st "final_script" (.vs (pyStrip ⟨x⟩))

/-- C10 as amended.  Whenever the output contains the opening marker, both
roles store the extracted text, and the closing fence is sought only inside
the second piece of the split at every opening-marker occurrence (the code
splits at `"```python"` first, so the stretch searched ends at the next
opening marker, not at the end of the output).  Concretely: when no further
opening marker follows the first one, the stored text is the (stripped) text
between the first opening marker and the next closing fence — the claim's
terminated case; when no closing fence follows the first opening marker at
all, the stored text is the entire (stripped) remainder after the marker —
an unterminated fence is accepted, not dropped; and in general the stored
text is the (stripped) prefix of the second marker-split piece before the
first closing fence inside that piece, or that whole piece when it has
none. -/
theorem fenced_extraction (output : String) (st : PyState) (b a : List Char)
    (hsplit : firstSplitCh "```python".data output.data = some (b, a)) :
    (∀ c d, pyContainsCh "```python".data a = false →
      firstSplitCh "```".data a = some (c, d) → storesExtract output st c) ∧
    (pyContainsCh "```".data a = false → storesExtract output st a) ∧
    (∀ p, (pySplitCh "```python".data output.data).getD 1 [] = p →
      (∀ c d, firstSplitCh "```".data p = some (c, d) → storesExtract output st c) ∧
      (pyContainsCh "```".data p = false → storesExtract output st p)) := by
  have hmarker : pyContains "```python" output = true := by
    rw [pyContains, pyContainsCh_iff_firstSplitCh, hsplit]
    rfl
  have hpieces : pySplitCh "```python".data output.data
      = b :: pySplitCh "```python".data a :=
    pySplitCh_cons_of_firstSplit (by decide) hsplit
  have hstore : ∀ x : List Char,
      extractFenced output = pyStrip ⟨x⟩ → storesExtract output st x := by
    intro x hx
    refine ⟨hx, ?_, ?_⟩
    · rw [coreProcess, if_pos hmarker, hx]
    · rw [codeProcess, if_pos hmarker, hx]
  have hgen : ∀ p, (pySplitCh "```python".data output.data).getD 1 [] = p →
      (∀ c d, firstSplitCh "```".data p = some (c, d) → storesExtract output st c) ∧
      (pyContainsCh "```".data p = false → storesExtract output st p) := by
    intro p hp
    constructor
    · intro c d hcd
      refine hstore c ?_
      rw [extractFenced, hp, pySplitCh_cons_of_firstSplit (by decide) hcd]
      rfl
    · intro hnc
      refine hstore p ?_
      rw [extractFenced, hp, pySplitCh_of_not_contains hnc]
      rfl
  refine ⟨?_, ?_, hgen⟩
  · intro c d hnomark hcd
    have hp : (pySplitCh "```python".data output.data).getD 1 [] = a := by
      rw [hpieces, pySplitCh_of_not_contains hnomark]
      rfl
    exact (hgen a hp).1 c d hcd
  · intro hnofence
    have hnomark : pyContainsCh "```python".data a = false := by
      cases hc : pyContainsCh "```python".data a with
      | false => rfl
      | true =>
        have := pyContainsCh_of_prefix
          (show List.isPrefixOf "```".data "```python".data = true by decide) hc
        rw [hnofence] at this
        cases this
    have hp : (pySplitCh "```python".data output.data).getD 1 [] = a := by
      rw [hpieces, pySplitCh_of_not_contains hnomark]
      rfl
    exact (hgen a hp).2 hnofence

/-- Witness for C10 at a terminated-fence output and at an unterminated one. -/
theorem fenced_extraction_witness :
    extractFenced "x```python\nprint(1)\n```y" = "print(1)" ∧
    codeProcess "x```python\nprint(1)\n```y" initState =
      dSet initState "final_script" (.vs "print(1)") ∧
    extractFenced "x```python\nprint(1)" = "print(1)" ∧
    codeProcess "x```python\nprint(1)" initState =
      dSet initState "final_script" (.vs (pyStrip ⟨"\nprint(1)".data⟩)) := by
  have ht := (fenced_extraction "x```python\nprint(1)\n```y" initState "x".data
      "\nprint(1)\n```y".data (by decide)).1 "\nprint(1)\n".data "y".data
      (by decide) (by decide)
  have hu := (fenced_extraction "x```python\nprint(1)" initState "x".data
      "\nprint(1)".data (by decide)).2.1 (by decide)
  have hc : pyStrip ⟨"\nprint(1)\n".data⟩ = "print(1)" := by decide
  refine ⟨?_, ?_, ?_, hu.2.2⟩
  · rw [ht.1, hc]
  · rw [ht.2.2, hc]
  · rw [hu.1]
    decide

/-- The extraction C10 claims, read from its words over the output as a
whole: the text of the output after the first opening marker, up to the next
closing fence in that remainder (or all of the remainder, when no closing
fence occurs in it), stripped. -/
def ClaimC10Extract (output : String) : Option String :=
  match firstSplitCh "```python".data output.data with
  | none => none
  | some (_, rest) =>
    match firstSplitCh "```".data rest with
    | some (c, _) => some (pyStrip ⟨c⟩)
    | none => some (pyStrip ⟨rest⟩)

/-- C10 counterexample.  On the output `"```python````pythonXYZ"` the
remainder after the first opening marker is `"````pythonXYZ"`, whose first
closing fence is the three backticks right at its start, so the claimed
extraction — the text between the first opening marker and the next closing
fence — is empty.  The program instead splits at every opening-marker
occurrence first, and the second occurrence starts one character in, so it
stores the single backtick in between: not the empty string, and not the
whole stripped remainder either, refuting the claim's terminated-fence
clause under either reading of where the fence search ends. -/
theorem fenced_extraction_counterexample :
    firstSplitCh "```python".data "```python````pythonXYZ".data
      = some ([], "````pythonXYZ".data) ∧
    ClaimC10Extract "```python````pythonXYZ" = some "" ∧
    extractFenced "```python````pythonXYZ" = "`" ∧
    getDict (coreProcess "```python````pythonXYZ" initState) "code_chunks"
      = [("chunk_1", "`")] ∧
    codeProcess "```python````pythonXYZ" initState
      = dSet initState "final_script" (.vs "`") ∧
    pyStrip "````pythonXYZ" ≠ "`" := by
  refine ⟨by decide, by decide, by decide, by decide, by decide, by decide⟩

/-! ## Claim C6: validation keys are chunk ids in every reachable state -/

theorem alGet_alSetdefault_self {α : Type} (l : List (String × α)) (k : String) (v : α) :
    alGet (alSetdefault l k v) k = some ((alGet l k).getD v) := by
  induction l with
  | nil => simp [alSetdefault, alGet]
  | cons p ps ih =>
    by_cases hp : p.1 = k
    · simp [alSetdefault, alGet, hp]
    · simp [alSetdefault, alGet, hp, ih]

/-- The inductive invariant: every validation key is a chunk id, and the
pending chunk id (when set and non-empty) is a chunk id. -/
def ChunkInv (st : PyState) : Prop :=
  (∀ k, k ∈ alKeys (getDict st "validations") → k ∈ alKeys (getDict st "code_chunks")) ∧
  (∀ cid, dGet st "last_chunk_id" = some (.vs cid) → cid ≠ "" →
    cid ∈ alKeys (getDict st "code_chunks"))

theorem chunkInv_congr (st st' : PyState)
    (hv : getDict st' "validations" = getDict st "validations")
    (hc : getDict st' "code_chunks" = getDict st "code_chunks")
    (hl : dGet st' "last_chunk_id" = dGet st "last_chunk_id")
    (h : ChunkInv st) : ChunkInv st' := by
  refine ⟨fun k hk => ?_, fun cid hcid hne => ?_⟩
  · rw [hv] at hk
    rw [hc]
    exact h.1 k hk
  · rw [hl] at hcid
    rw [hc]
    exact h.2 cid hcid hne

theorem getDict_work_setdefault (st : PyState) :
    getDict (dSetdefault st "validations" (.vd [])) "validations" =
      getDict st "validations" := by
  have h := alGet_alSetdefault_self st "validations" (PyVal.vd [])
  rw [getDict, getDict]
  show (match dGet (dSetdefault st "validations" (.vd [])) "validations" with
    | some (.vd d) => d
    | _ => []) = _
  rw [show dGet (dSetdefault st "validations" (.vd [])) "validations" =
      some ((alGet st "validations").getD (PyVal.vd [])) from h]
  cases hg : alGet st "validations" with
  | none => simp [dGet, hg]
  | some v =>
    cases v <;> simp [dGet, hg]

/-- Each agent's fold preserves the invariant. -/
theorem chunkInv_step (a : AgentId) (out : String) (st : PyState)
    (h : ChunkInv st) : ChunkInv (processOutput a out st) := by
  cases a
  case cube =>
    exact chunkInv_congr st _ (getDict_dSet_ne _ _ _ _ (by decide))
      (getDict_dSet_ne _ _ _ _ (by decide)) (dGet_dSet_ne _ _ _ _ (by decide)) h
  case wave =>
    exact chunkInv_congr st _ (getDict_dSet_ne _ _ _ _ (by decide))
      (getDict_dSet_ne _ _ _ _ (by decide)) (dGet_dSet_ne _ _ _ _ (by decide)) h
  case loop =>
    show ChunkInv (loopProcess out st)
    rw [loopProcess]
    split
    · exact chunkInv_congr _ _
        (by rw [getDict_dSet_ne _ _ _ _ (by decide), getDict_dSet_ne _ _ _ _ (by decide)])
        (by rw [getDict_dSet_ne _ _ _ _ (by decide), getDict_dSet_ne _ _ _ _ (by decide)])
        (by rw [dGet_dSet_ne _ _ _ _ (by decide), dGet_dSet_ne _ _ _ _ (by decide)]) h
    · exact chunkInv_congr st _ (getDict_dSet_ne _ _ _ _ (by decide))
        (getDict_dSet_ne _ _ _ _ (by decide)) (dGet_dSet_ne _ _ _ _ (by decide)) h
  case line =>
    exact chunkInv_congr st _ (getDict_dSet_ne _ _ _ _ (by decide))
      (getDict_dSet_ne _ _ _ _ (by decide)) (dGet_dSet_ne _ _ _ _ (by decide)) h
  case coin =>
    exact chunkInv_congr st _ (getDict_dSet_ne _ _ _ _ (by decide))
      (getDict_dSet_ne _ _ _ _ (by decide)) (dGet_dSet_ne _ _ _ _ (by decide)) h
  case code =>
    show ChunkInv (codeProcess out st)
    rw [codeProcess]
    split
    · exact chunkInv_congr st _ (getDict_dSet_ne _ _ _ _ (by decide))
        (getDict_dSet_ne _ _ _ _ (by decide)) (dGet_dSet_ne _ _ _ _ (by decide)) h
    · exact h
  case core =>
    show ChunkInv (coreProcess out st)
    rw [coreProcess]
    split
    · set d' := dictSet (getDict st "code_chunks")
        ("chunk_" ++ toString ((getDict st "code_chunks").length + 1)) (extractFenced out)
        with hd'
      set cid' := "chunk_" ++ toString ((getDict st "code_chunks").length + 1) with hcid'
      refine ⟨fun k hk => ?_, fun cid hcid hne => ?_⟩
      · rw [getDict_dSet_ne _ _ _ _ (by decide), getDict_dSet_ne _ _ _ _ (by decide)] at hk
        rw [getDict_dSet_ne _ _ _ _ (by decide), getDict_dSet_self]
        exact (mem_alKeys_alSet _ _ _ _).mpr (Or.inl (h.1 k hk))
      · rw [dGet_dSet_self] at hcid
        injection hcid with hv
        injection hv with hv
        rw [getDict_dSet_ne _ _ _ _ (by decide), getDict_dSet_self]
        exact (mem_alKeys_alSet _ _ _ _).mpr (Or.inr hv.symm)
    · exact h
  case work =>
    show ChunkInv (workProcess out st)
    rw [workProcess]
    have hv1 : getDict (dSetdefault st "validations" (.vd [])) "validations" =
        getDict st "validations" := getDict_work_setdefault st
    have hc1 : getDict (dSetdefault st "validations" (.vd [])) "code_chunks" =
        getDict st "code_chunks" := getDict_dSetdefault_ne _ _ _ _ (by decide)
    have hl1 : dGet (dSetdefault st "validations" (.vd [])) "last_chunk_id" =
        dGet st "last_chunk_id" := dGet_dSetdefault_ne _ _ _ _ (by decide)
    have h1 : ChunkInv (dSetdefault st "validations" (.vd [])) :=
      chunkInv_congr st _ hv1 hc1 hl1 h
    set st1 := dSetdefault st "validations" (.vd []) with hst1
    by_cases hg : getStr st1 "last_chunk_id" "" = ""
    · rw [if_pos hg]
      exact h1
    · rw [if_neg hg]
      obtain ⟨cid, hcid, hcne⟩ : ∃ cid, dGet st1 "last_chunk_id" = some (.vs cid) ∧ cid ≠ "" := by
        rw [getStr] at hg
        cases hd : dGet st1 "last_chunk_id" with
        | none => rw [hd] at hg; exact absurd rfl hg
        | some v =>
          cases v with
          | vs s => exact ⟨s, rfl, by rw [hd] at hg; exact hg⟩
          | vn q => rw [hd] at hg; exact absurd rfl hg
          | vd d => rw [hd] at hg; exact absurd rfl hg
      have hmem : getStr st1 "last_chunk_id" "" ∈ alKeys (getDict st1 "code_chunks") := by
        rw [getStr, hcid]
        exact h1.2 cid hcid hcne
      split
      · refine ⟨fun k hk => ?_, fun c hc hne => ?_⟩
        · rw [getDict_dSet_self] at hk
          rw [getDict_dSet_ne _ _ _ _ (by decide)]
          rcases (mem_alKeys_alSet _ _ _ _).mp hk with hk | rfl
          · exact h1.1 k hk
          · exact hmem
        · rw [dGet_dSet_ne _ _ _ _ (by decide)] at hc
          rw [getDict_dSet_ne _ _ _ _ (by decide)]
          exact h1.2 c hc hne
      · refine ⟨fun k hk => ?_, fun c hc hne => ?_⟩
        · rw [getDict_dSet_ne _ _ _ _ (by decide), getDict_dSet_self] at hk
          rw [getDict_dSet_ne _ _ _ _ (by decide), getDict_dSet_ne _ _ _ _ (by decide)]
          rcases (mem_alKeys_alSet _ _ _ _).mp hk with hk | rfl
          · exact h1.1 k hk
          · exact hmem
        · rw [dGet_dSet_ne _ _ _ _ (by decide), dGet_dSet_ne _ _ _ _ (by decide)] at hc
          rw [getDict_dSet_ne _ _ _ _ (by decide), getDict_dSet_ne _ _ _ _ (by decide)]
          exact h1.2 c hc hne

/-- An arbitrary sequence of role fold operations applied to a state. -/
def runFolds (ops : List (AgentId × String)) (st : PyState) : PyState :=
  ops.foldl (fun s op => processOutput op.1 op.2 s) st

theorem chunkInv_runFolds (ops : List (AgentId × String)) (st : PyState)
    (h : ChunkInv st) : ChunkInv (runFolds ops st) := by
  induction ops generalizing st with
  | nil => exact h
  | cons op rest ih => exact ih _ (chunkInv_step op.1 op.2 st h)

theorem chunkInv_init : ChunkInv initState := by
  constructor
  · intro k hk
    simp [initState, getDict, dGet, alGet, alKeys] at hk
  · intro cid hcid
    simp [initState, dGet, alGet] at hcid

/-- C6.  In every state reachable from the initial state by any sequence of
role fold operations, every key of `validations` is a key of `code_chunks`. -/
theorem validation_keys_are_chunk_ids (ops : List (AgentId × String)) (k : String) :
    k ∈ alKeys (getDict (runFolds ops initState) "validations") →
    k ∈ alKeys (getDict (runFolds ops initState) "code_chunks") :=
  (chunkInv_runFolds ops initState chunkInv_init).1 k

/-- Witness for C6: after producing one chunk and validating it, `chunk_1` is
a validation key and (as the theorem requires) a chunk id. -/
theorem validation_keys_are_chunk_ids_witness :
    "chunk_1" ∈ alKeys (getDict (runFolds
      [(.core, "```python\nprint(1)\n```"), (.work, "VALID")] initState) "code_chunks") :=
  validation_keys_are_chunk_ids
    [(.core, "```python\nprint(1)\n```"), (.work, "VALID")] "chunk_1" (by decide)

/-! ## Claim C7: the assembler incorporates only VALID chunks -/

/-- C7.  The assembler's rendered instruction embeds (as its third
concatenation piece) the JSON dump of exactly those chunks whose validation
verdict is exactly `"VALID"`: a chunk id is shown if and only if it is a
chunk with verdict `"VALID"`, and a chunk with an `"INVALID - ..."` verdict
or with no verdict at all is never shown. -/
theorem assembler_gating (basePrompt : String) (st : PyState) (k r : String) :
    ((metaPromptPieces .code basePrompt st).getD 2 "" = jsonDumpsDict (validChunks st)) ∧
    (k ∈ alKeys (validChunks st) ↔ k ∈ alKeys (getDict st "code_chunks") ∧
      dictGet (getDict st "validations") k = some "VALID") ∧
    (pyStartsWith "INVALID" r = true → dictGet (getDict st "validations") k = some r →
      k ∉ alKeys (validChunks st)) ∧
    (dictGet (getDict st "validations") k = none → k ∉ alKeys (validChunks st)) := by
  have mem_keys : ∀ (d : PyDict) (a : String), a ∈ alKeys d ↔ ∃ v, (a, v) ∈ d := by
    intro d a
    simp only [alKeys, List.mem_map]
    constructor
    · rintro ⟨p, hp, rfl⟩
      exact ⟨p.2, hp⟩
    · rintro ⟨v, hv⟩
      exact ⟨(a, v), hv, rfl⟩
  have hmem : k ∈ alKeys (validChunks st) ↔ k ∈ alKeys (getDict st "code_chunks") ∧
      dictGet (getDict st "validations") k = some "VALID" := by
    rw [validChunks, mem_keys, mem_keys]
    constructor
    · rintro ⟨v, hv⟩
      rw [List.mem_filter] at hv
      exact ⟨⟨v, hv.1⟩, eq_of_beq hv.2⟩
    · rintro ⟨⟨v, hv⟩, hval⟩
      refine ⟨v, ?_⟩
      rw [List.mem_filter]
      refine ⟨hv, ?_⟩
      rw [hval]
      rfl
  refine ⟨rfl, hmem, ?_, ?_⟩
  · intro hr hget hk
    have hv := (hmem.mp hk).2
    rw [hget] at hv
    injection hv with hv
    subst hv
    exact absurd hr (by decide)
  · intro hget hk
    have hv := (hmem.mp hk).2
    rw [hget] at hv
    cases hv

/-- Witness for C7: with one valid and one invalid chunk, the invalid one is
excluded from the assembler's dict. -/
theorem assembler_gating_witness :
    "chunk_2" ∉ alKeys (validChunks
      [("code_chunks", PyVal.vd [("chunk_1", "print(1)"), ("chunk_2", "print(2)")]),
       ("validations", PyVal.vd [("chunk_1", "VALID"), ("chunk_2", "INVALID - syntax")])]) :=
  (assembler_gating "goal"
    [("code_chunks", PyVal.vd [("chunk_1", "print(1)"), ("chunk_2", "print(2)")]),
     ("validations", PyVal.vd [("chunk_1", "VALID"), ("chunk_2", "INVALID - syntax")])]
    "chunk_2" "INVALID - syntax").2.2.1 (by decide) (by decide)

/-! ## Claim C2: bounded cycles and the final deliverable -/

instance : Inhabited CycleRec :=
  ⟨{index := 0, entropy := 0, headIn := "", cubeInv := default, action := "",
    fanout := [], headOut := ""}⟩

theorem runCycle_cases (oracle : Oracle) (p : String) (i : Nat) (h : String) (st : PyState) :
    ((runCycle oracle p i h st).2.2.2 = true →
      (runCycle oracle p i h st).1.action = "COMPLETE" ∧
      (runCycle oracle p i h st).1.fanout = []) ∧
    ((runCycle oracle p i h st).2.2.2 = false →
      (runCycle oracle p i h st).1.action ≠ "COMPLETE") := by
  by_cases hA : getStr (reasonAndAct .cube p h
      (dSet st "current_entropy_score" (.vn (calculate_entropy st))) (oracle i .cube)).2
      "current_action" "PLAN" = "COMPLETE"
  · simp only [runCycle, if_pos hA]
    exact ⟨fun _ => ⟨hA, trivial⟩, fun hf => absurd hf (by simp)⟩
  · simp only [runCycle, if_neg hA]
    exact ⟨fun ht => absurd ht (by simp), fun _ => hA⟩

theorem runLoop_spec (oracle : Oracle) (p : String) :
    ∀ (fuel i : Nat) (h : String) (st : PyState),
      (runLoop oracle p fuel i h st).1.length ≤ fuel ∧
      (∀ j, j + 1 < (runLoop oracle p fuel i h st).1.length →
        ((runLoop oracle p fuel i h st).1.getD j default).action ≠ "COMPLETE") ∧
      (∀ c ∈ (runLoop oracle p fuel i h st).1, c.action = "COMPLETE" → c.fanout = []) ∧
      ((∃ c, (runLoop oracle p fuel i h st).1.getLast? = some c ∧
         c.action = "COMPLETE" ∧ c.fanout = []) ∨
       (runLoop oracle p fuel i h st).1.length = fuel) := by
  intro fuel
  induction fuel with
  | zero =>
    intro i h st
    refine ⟨Nat.le_refl 0, fun j hj => ?_, fun c hc => ?_, Or.inr rfl⟩
    · simp only [runLoop, List.length_nil] at hj
      omega
    · simp only [runLoop, List.not_mem_nil] at hc
  | succ n ih =>
    intro i h st
    have hrc := runCycle_cases oracle p i h st
    rw [runLoop]
    cases hdone : (runCycle oracle p i h st).2.2.2 with
    | true =>
      rw [if_pos rfl]
      obtain ⟨hact, hfan⟩ := hrc.1 hdone
      refine ⟨by simp, fun j hj => ?_, fun c hc hcom => ?_, ?_⟩
      · simp only [List.length_singleton] at hj
        omega
      · rw [List.mem_singleton] at hc
        subst hc
        exact hfan
      · exact Or.inl ⟨(runCycle oracle p i h st).1, rfl, hact, hfan⟩
    | false =>
      rw [if_neg (by simp)]
      have hact := hrc.2 hdone
      obtain ⟨ihlen, ihmid, ihcom, ihlast⟩ :=
        ih (i + 1) (runCycle oracle p i h st).2.1 (runCycle oracle p i h st).2.2.1
      refine ⟨?_, ?_, ?_, ?_⟩
      · simpa using Nat.succ_le_succ ihlen
      · intro j hj
        cases j with
        | zero =>
          rw [List.getD_cons_zero]
          exact hact
        | succ m =>
          rw [List.getD_cons_succ]
          simp only [List.length_cons] at hj
          exact ihmid m (by omega)
      · intro c hc hcom
        rcases List.mem_cons.mp hc with rfl | hc
        · exact absurd hcom hact
        · exact ihcom c hc hcom
      · rcases ihlast with ⟨c, hlast, hcact, hcfan⟩ | hlen
        · left
          refine ⟨c, ?_, hcact, hcfan⟩
          have hne : (runLoop oracle p n (i + 1) (runCycle oracle p i h st).2.1
              (runCycle oracle p i h st).2.2.1).1 ≠ [] := by
            intro he
            rw [he] at hlast
            simp at hlast
          show ((runCycle oracle p i h st).1 :: (runLoop oracle p n (i + 1)
            (runCycle oracle p i h st).2.1 (runCycle oracle p i h st).2.2.1).1).getLast? = some c
          obtain ⟨b, L, hbl⟩ := List.exists_cons_of_ne_nil hne
          rw [hbl] at hlast ⊢
          rw [List.getLast?_cons_cons]
          exact hlast
        · right
          show ((runCycle oracle p i h st).1 :: (runLoop oracle p n (i + 1)
            (runCycle oracle p i h st).2.1 (runCycle oracle p i h st).2.2.1).1).length = n + 1
          rw [List.length_cons, hlen]

/-- C2.  Every orchestration run terminates within 10 cycles: a cycle whose
decision is `COMPLETE` runs no further roles and is the last cycle (no
non-final cycle is a `COMPLETE` cycle); the run either ends at such a cycle
or after exactly 10 cycles; and the final deliverable is the value of
`final_script` when set and the fixed placeholder otherwise. -/
theorem run_terminates (oracle : Oracle) (p : String) :
    (run_orchestration oracle p).1.length ≤ 10 ∧
    (∀ j, j + 1 < (run_orchestration oracle p).1.length →
      ((run_orchestration oracle p).1.getD j default).action ≠ "COMPLETE") ∧
    (∀ c ∈ (run_orchestration oracle p).1, c.action = "COMPLETE" → c.fanout = []) ∧
    ((∃ c, (run_orchestration oracle p).1.getLast? = some c ∧
       c.action = "COMPLETE" ∧ c.fanout = []) ∨
     (run_orchestration oracle p).1.length = 10) ∧
    (∀ s, dGet (run_orchestration oracle p).2.1 "final_script" = some (.vs s) →
      (run_orchestration oracle p).2.2 = s) ∧
    (dGet (run_orchestration oracle p).2.1 "final_script" = none →
      (run_orchestration oracle p).2.2 = noScriptMsg) := by
  obtain ⟨h1, h2, h3, h4⟩ :=
    runLoop_spec oracle p 10 1 (create_genesis_hash p) initState
  refine ⟨h1, h2, h3, h4, fun s hs => ?_, fun hn => ?_⟩
  · show getStr (run_orchestration oracle p).2.1 "final_script" noScriptMsg = s
    rw [getStr, hs]
  · show getStr (run_orchestration oracle p).2.1 "final_script" noScriptMsg = noScriptMsg
    rw [getStr, hn]

/-! ## Claim C1: the fingerprint chain -/

/-- The flattened sequence of invocation records of a run, in chain order:
each cycle's decision-maker invocation followed by its fan-out invocations. -/
def chainInvs (t : List CycleRec) : List InvRec :=
  (t.map (fun c => c.cubeInv :: c.fanout)).flatten

/-- Claim C1 as stated: every invocation's fingerprint is the digest of (the
fingerprint of the immediately preceding invocation in chain order, the
role's identity, the role's rendered instruction). -/
def ClaimC1Prop (t : List CycleRec) : Prop :=
  ∀ j, j + 1 < (chainInvs t).length →
    ((chainInvs t).getD (j + 1) default).fp =
      rehash_fragment ((chainInvs t).getD j default).fp
        ((chainInvs t).getD (j + 1) default).agent
        ((chainInvs t).getD (j + 1) default).prompt

/-- What is actually true of one cycle's records (the amended provenance). -/
def CycleChainOk (c : CycleRec) : Prop :=
  c.cubeInv.origin = c.headIn ∧
  c.cubeInv.fp = rehash_fragment c.headIn c.cubeInv.agent c.cubeInv.prompt ∧
  (∀ inv ∈ c.fanout, inv.origin = c.cubeInv.fp ∧
    inv.fp = rehash_fragment c.cubeInv.fp inv.agent inv.prompt) ∧
  c.headOut = (c.fanout.map (fun r => r.fp)).getLastD c.cubeInv.fp

theorem reasonAndAct_fp (a : AgentId) (p o : String) (st : PyState) (resp : String) :
    (reasonAndAct a p o st resp).1.origin = o ∧
    (reasonAndAct a p o st resp).1.fp =
      rehash_fragment o (reasonAndAct a p o st resp).1.agent
        (reasonAndAct a p o st resp).1.prompt := by
  refine ⟨rfl, ?_⟩
  show rehash_fragmentPieces o (agentName a) (metaPromptPieces a p st) =
    rehash_fragment o (agentName a) (String.join (metaPromptPieces a p st))
  exact rehash_fragmentPieces_eq _ _ _

theorem runCycle_chain (oracle : Oracle) (p : String) (i : Nat) (h : String) (st : PyState) :
    CycleChainOk (runCycle oracle p i h st).1 ∧
    (runCycle oracle p i h st).1.headIn = h ∧
    (runCycle oracle p i h st).2.1 = (runCycle oracle p i h st).1.headOut := by
  by_cases hA : getStr (reasonAndAct .cube p h
      (dSet st "current_entropy_score" (.vn (calculate_entropy st))) (oracle i .cube)).2
      "current_action" "PLAN" = "COMPLETE"
  · simp only [runCycle, if_pos hA]
    refine ⟨⟨(reasonAndAct_fp _ _ _ _ _).1, (reasonAndAct_fp _ _ _ _ _).2,
      fun inv hinv => absurd hinv (List.not_mem_nil inv), by trivial⟩, by trivial, by trivial⟩
  · simp only [runCycle, if_neg hA]
    refine ⟨⟨(reasonAndAct_fp _ _ _ _ _).1, (reasonAndAct_fp _ _ _ _ _).2,
      fun inv hinv => ?_, by trivial⟩, by trivial, by trivial⟩
    rw [List.mem_map] at hinv
    obtain ⟨a, _, rfl⟩ := hinv
    exact ⟨(reasonAndAct_fp _ _ _ _ _).1, (reasonAndAct_fp _ _ _ _ _).2⟩

theorem runLoop_chain (oracle : Oracle) (p : String) :
    ∀ (fuel i : Nat) (h : String) (st : PyState),
      (∀ c ∈ (runLoop oracle p fuel i h st).1, CycleChainOk c) ∧
      ((runLoop oracle p fuel i h st).1 ≠ [] →
        ((runLoop oracle p fuel i h st).1.getD 0 default).headIn = h) ∧
      (∀ j, j + 1 < (runLoop oracle p fuel i h st).1.length →
        ((runLoop oracle p fuel i h st).1.getD (j + 1) default).headIn =
          ((runLoop oracle p fuel i h st).1.getD j default).headOut) := by
  intro fuel
  induction fuel with
  | zero =>
    intro i h st
    refine ⟨fun c hc => ?_, fun hne => ?_, fun j hj => ?_⟩
    · simp only [runLoop, List.not_mem_nil] at hc
    · simp only [runLoop, ne_eq, not_true_eq_false] at hne
    · simp only [runLoop, List.length_nil] at hj
      omega
  | succ n ih =>
    intro i h st
    have hcyc := runCycle_chain oracle p i h st
    rw [runLoop]
    cases hdone : (runCycle oracle p i h st).2.2.2 with
    | true =>
      rw [if_pos rfl]
      refine ⟨fun c hc => ?_, fun _ => ?_, fun j hj => ?_⟩
      · rw [List.mem_singleton] at hc
        subst hc
        exact hcyc.1
      · rw [List.getD_cons_zero]
        exact hcyc.2.1
      · simp only [List.length_singleton] at hj
        omega
    | false =>
      rw [if_neg (by simp)]
      obtain ⟨ihall, ihhead, ihadj⟩ :=
        ih (i + 1) (runCycle oracle p i h st).2.1 (runCycle oracle p i h st).2.2.1
      refine ⟨fun c hc => ?_, fun _ => ?_, fun j hj => ?_⟩
      · rcases List.mem_cons.mp hc with rfl | hc
        · exact hcyc.1
        · exact ihall c hc
      · rw [List.getD_cons_zero]
        exact hcyc.2.1
      · cases j with
        | zero =>
          rw [List.getD_cons_succ, List.getD_cons_zero]
          have hne : (runLoop oracle p n (i + 1) (runCycle oracle p i h st).2.1
              (runCycle oracle p i h st).2.2.1).1 ≠ [] := by
            intro he
            simp only [List.length_cons, he, List.length_nil] at hj
            omega
          rw [ihhead hne]
          exact hcyc.2.2
        | succ m =>
          rw [List.getD_cons_succ, List.getD_cons_succ]
          simp only [List.length_cons] at hj
          exact ihadj m (by omega)

/-- C1 as amended.  The run's provenance chain works cycle-wise: within every
cycle, the decision-maker's fingerprint is the digest of (the chain head the
cycle received, its identity, its rendered instruction); every fan-out role's
fingerprint is the digest of (the decision-maker's fingerprint of that cycle
— not the preceding fan-out invocation's fingerprint — the role's identity,
and its rendered instruction); the cycle's outgoing chain head is the last
fan-out fingerprint (or the decision-maker's, if no roles ran); consecutive
cycles are linked head-to-head; and the first cycle starts from the genesis
hash of the initial prompt. -/
theorem fingerprint_chain (oracle : Oracle) (p : String) :
    (∀ c ∈ (run_orchestration oracle p).1, CycleChainOk c) ∧
    ((run_orchestration oracle p).1 ≠ [] →
      ((run_orchestration oracle p).1.getD 0 default).headIn =
        create_genesis_hash p) ∧
    (∀ j, j + 1 < (run_orchestration oracle p).1.length →
      ((run_orchestration oracle p).1.getD (j + 1) default).headIn =
        ((run_orchestration oracle p).1.getD j default).headOut) :=
  runLoop_chain oracle p 10 1 (create_genesis_hash p) initState

/-- An oracle under which the decision maker answers `PLAN` in cycle 1 (so
the engine fans out to the four planning roles) and `COMPLETE` in cycle 2;
every other role answers `ok`. -/
def oracleCE : Oracle := fun i a =>
  match a with
  | .cube => if i = 1 then "PLAN" else "COMPLETE"
  | _ => "ok"

set_option maxRecDepth 100000 in
/-- C1 counterexample.  On the run driven by `oracleCE` from the initial
prompt `"hi"`, cycle 1 fans out to four roles; the third invocation of the
chain (the advisor's) carries a fingerprint derived from the decision
maker's fingerprint, not from the fingerprint of the immediately preceding
invocation (the promiser's), so the claimed per-invocation chaining fails at
chain position 1 → 2. -/
theorem fingerprint_chain_counterexample :
    ¬ ClaimC1Prop (run_orchestration oracleCE "hi").1 := by
  intro h
  have hlen : 1 + 1 < (chainInvs (run_orchestration oracleCE "hi").1).length := by
    with_unfolding_all decide
  have hj := h 1 hlen
  revert hj
  with_unfolding_all decide
